import Mathlib

/-!
Verification development for a small interactive line editor (a Go package
consisting of a main editor file and a common file with history handling).

Modelling conventions:
* Go runes (Unicode code points) are modelled as natural numbers; Go strings
  and rune slices are modelled as lists of naturals (the editor works at
  code-point granularity throughout, and all claim scenarios are ASCII,
  where byte offsets and rune offsets coincide).
* The terminal is external: rendering calls are dropped, while the
  observable side effects that the claims mention (beeps, re-arming the
  reader) are recorded in an explicit effect list.
* The kill ring, a circular list with a current pointer in the source, is
  modelled as a plain list ordered from oldest to newest with the current
  node last; the only operations the claims exercise (the three add modes)
  keep this representation exact.
* The history file reader uses the standard library line reader, which
  strips a final "\r\n" or "\n" from each line read; this behaviour is
  modelled faithfully in readLinesAux.
-/

namespace Liner

/-- A rune string: the contents of a Go string or rune slice, one natural
number per code point. -/
abbrev Str := List Nat

/-- Maximum number of elements saved on the kill ring (KillRingMax). -/
def KillRingMax : Nat := 60

/-- Maximum number of entries saved in the scrollback history (HistoryLimit). -/
def HistoryLimit : Nat := 1000

/-- Control-code constants, named as in the source. -/
def ctrlA : Nat := 1
def ctrlB : Nat := 2
def ctrlC : Nat := 3
def ctrlD : Nat := 4
def ctrlE : Nat := 5
def ctrlF : Nat := 6
def ctrlG : Nat := 7
def ctrlH : Nat := 8
def tab : Nat := 9
def lf : Nat := 10
def ctrlK : Nat := 11
def ctrlL : Nat := 12
def cr : Nat := 13
def ctrlN : Nat := 14
def ctrlO : Nat := 15
def ctrlP : Nat := 16
def ctrlQ : Nat := 17
def ctrlR : Nat := 18
def ctrlS : Nat := 19
def ctrlT : Nat := 20
def ctrlU : Nat := 21
def ctrlV : Nat := 22
def ctrlW : Nat := 23
def ctrlX : Nat := 24
def ctrlY : Nat := 25
def ctrlZ : Nat := 26
def esc : Nat := 27
def bs : Nat := 127

/-- Helper turning a Lean string literal into its rune list. -/
def strRunes (s : String) : Str := s.toList.map Char.toNat

/-- The named non-character keys produced by the terminal (the action type of
the source; the source's end key is called endOfLine here because end is a
Lean keyword). -/
inductive Act where
  | left | right | up | down | home | endOfLine | insert | del
  | pageUp | pageDown
  | f1 | f2 | f3 | f4 | f5 | f6 | f7 | f8 | f9 | f10 | f11 | f12
  | altY | shiftTab | wordLeft | wordRight | winch | unknown
deriving DecidableEq, Repr

/-- A logical key read from the terminal: either a rune or an action. -/
inductive Key where
  | ch (c : Nat)
  | act (a : Act)
deriving DecidableEq, Repr

/-- Model of unicode.IsSpace restricted to the White_Space code points
(the Latin-1 fast path of the Go function plus the Unicode space table). -/
def isSpace (c : Nat) : Bool :=
  c == 9 || c == 10 || c == 11 || c == 12 || c == 13 || c == 32 ||
  c == 0x85 || c == 0xA0 || c == 0x1680 ||
  (0x2000 ≤ c && c ≤ 0x200A) || c == 0x2028 || c == 0x2029 ||
  c == 0x202F || c == 0x205F || c == 0x3000

/-! ## History (common file) -/

/-- AppendHistory: appending an item equal to the last entry is a no-op;
otherwise appended, and the oldest entry dropped past HistoryLimit. -/
def appendHistory (history : List Str) (item : Str) : List Str :=
  if history.getLast? = some item then history
  else if HistoryLimit < (history ++ [item]).length then (history ++ [item]).drop 1
  else history ++ [item]

/-- One step of the ReadHistory loop body: append a line, then drop the
oldest entry if the history exceeds HistoryLimit. -/
def histAppendTrim (h : List Str) (l : Str) : List Str :=
  if HistoryLimit < (h ++ [l]).length then (h ++ [l]).drop 1 else h ++ [l]

/-- Finish one accumulated line (held in reverse): drop a carriage return
standing immediately before the newline, as the standard library line
reader does, and restore the original order. -/
def stripRevCR : List Nat → List Nat
  | 13 :: acc2 => acc2.reverse
  | acc => acc.reverse

/-- The line reader used by ReadHistory (bufio ReadLine): splits the input
at newline runes, stripping the newline and a carriage return immediately
before it; a final chunk not terminated by a newline is still returned.
The accumulator holds the current line reversed. -/
def readLinesAux : List Nat → List Nat → List Str
  | acc, [] => if acc.isEmpty then [] else [acc.reverse]
  | acc, c :: rest =>
    if c = 10 then stripRevCR acc :: readLinesAux [] rest
    else readLinesAux (c :: acc) rest

/-- No two consecutive history entries are equal. -/
def noConsecutiveDup (h : List Str) : Prop := List.Chain' (· ≠ ·) h

/-- ReadHistory on a fully-buffered input: reads lines, appends each to the
history with FIFO trimming, and returns the number of lines read.
(The source's error cases, a line overflowing the reader's internal buffer
and invalid UTF-8, concern the byte level and cannot arise in the rune
model; the claims using this definition assume them away.) -/
def readHistory (history : List Str) (file : List Nat) : Nat × List Str :=
  let lines := readLinesAux [] file
  (lines.length, lines.foldl histAppendTrim history)

/-- WriteHistory: each entry is emitted followed by a newline; returns the
number of entries written. -/
def writeHistory (history : List Str) : Nat × List Nat :=
  (history.length, (history.map (fun l => l ++ [10])).flatten)

/-- Returns the history lines starting with the given prefix string
(getHistoryByPrefix in the source). -/
def getHistoryByPfx (history : List Str) (pfx : Str) : List Str :=
  history.filter (fun h => pfx.isPrefixOf h)

/-- First index at which pat occurs as a contiguous substring of hay
(strings.Index; none when absent). -/
def strIndex : Str → Str → Option Nat
  | hay, pat =>
    if pat.isPrefixOf hay then some 0
    else
      match hay with
      | [] => none
      | _ :: t => (strIndex t pat).map (· + 1)

/-- Returns the history lines containing the pattern, along with the match
offsets; the empty pattern matches nothing. -/
def getHistoryByPattern (history : List Str) (pat : Str) : List Str × List Nat :=
  if pat = [] then ([], [])
  else
    let pairs := history.filterMap (fun h => (strIndex h pat).map (fun i => (h, i)))
    (pairs.map Prod.fst, pairs.map Prod.snd)

/-! ## Kill ring -/

/-- The ring as seen by the append/prepend modes: an empty ring is first
replaced by a singleton ring holding the empty segment. -/
def killRingOrEmpty (killRing : List Str) : List Str :=
  if killRing = [] then [([] : Str)] else killRing

/-- addToKillRing. Mode 0 moves the current pointer to a fresh node holding
the text (overwriting the oldest node when the ring is full); mode 1 appends
and mode 2 prepends the text to the current node (creating an empty current
node first when the ring is empty). The ring is a list, oldest first,
current node last. -/
def addToKillRing (killRing : List Str) (text : Str) (mode : Nat) : List Str :=
  if mode = 0 then
    if killRing = [] then [text]
    else if KillRingMax ≤ killRing.length then killRing.tail ++ [text]
    else killRing ++ [text]
  else if mode = 1 then
    (killRingOrEmpty killRing).dropLast ++ [(killRingOrEmpty killRing).getLastD [] ++ text]
  else if mode = 2 then
    (killRingOrEmpty killRing).dropLast ++ [text ++ (killRingOrEmpty killRing).getLastD []]
  else (killRingOrEmpty killRing).dropLast ++ [text]

/-! ## Editor state and key dispatch -/

/-- The per-iteration state of the Prompt main loop. -/
structure EditorState where
  line : Str
  pos : Nat
  history : List Str
  prefixHistory : List Str
  historyPos : Nat
  historyEnd : Str
  killRing : List Str
  killAction : Nat
deriving DecidableEq, Repr

/-- How a Prompt session can end (accepted on CR/LF, eof on Ctrl-D with an
empty buffer); I/O errors are external and out of scope. -/
inductive EndReason | accepted | eof
deriving DecidableEq, Repr

/-- Observable terminal side effects recorded by the model. -/
inductive Effect | beep | startPromptCall | eraseScreenCall
deriving DecidableEq, Repr

/-- Result of dispatching one key. -/
inductive StepRes
  | cont (s : EditorState) (eff : List Effect)
  | done (line : Str) (r : EndReason)
deriving DecidableEq, Repr

/-- Result of the dispatch switch alone, before the end-of-iteration
bookkeeping: the new state, whether the action was history navigation, and
the effects. -/
inductive CoreRes
  | cont (s : EditorState) (histAct : Bool) (eff : List Effect)
  | done (line : Str) (r : EndReason)
deriving DecidableEq, Repr

/-- Delete the code point at index i. -/
def deleteAt (l : Str) (i : Nat) : Str := l.take i ++ l.drop (i + 1)

/-- Insert a code point at index i. -/
def insertAt (l : Str) (i : Nat) (c : Nat) : Str := l.take i ++ c :: l.drop i

/-- History previous (shared by CTRL-P and the up action, whose bodies are
identical in the source). -/
def historyUp (s : EditorState) : EditorState × List Effect :=
  if 0 < s.historyPos then
    if s.historyPos = s.prefixHistory.length then
      ({ s with historyEnd := s.line, historyPos := s.historyPos - 1,
                line := s.prefixHistory.getD (s.historyPos - 1) [],
                pos := (s.prefixHistory.getD (s.historyPos - 1) []).length }, [])
    else
      ({ s with historyPos := s.historyPos - 1,
                line := s.prefixHistory.getD (s.historyPos - 1) [],
                pos := (s.prefixHistory.getD (s.historyPos - 1) []).length }, [])
  else (s, [Effect.beep])

/-- History next (shared by CTRL-N and the down action). -/
def historyDown (s : EditorState) : EditorState × List Effect :=
  if s.historyPos < s.prefixHistory.length then
    ({ s with historyPos := s.historyPos + 1,
              line := if s.historyPos + 1 = s.prefixHistory.length then s.historyEnd
                      else s.prefixHistory.getD (s.historyPos + 1) [],
              pos := (if s.historyPos + 1 = s.prefixHistory.length then s.historyEnd
                      else s.prefixHistory.getD (s.historyPos + 1) []).length }, [])
  else (s, [Effect.beep])

/-- CTRL-K: delete the remainder of the line, recording it in the kill ring
(append mode on a consecutive kill, new-node mode otherwise). -/
def doCtrlK (s : EditorState) : EditorState × List Effect :=
  if s.line.length ≤ s.pos then (s, [Effect.beep])
  else
    ({ s with
        killRing := addToKillRing s.killRing (s.line.drop s.pos)
          (if 0 < s.killAction then 1 else 0),
        killAction := 2, line := s.line.take s.pos }, [])

/-- CTRL-U: erase the line before the cursor, recording it in the kill ring
(prepend mode on a consecutive kill, new-node mode otherwise); note the
source has no guard for an empty prefix. -/
def doCtrlU (s : EditorState) : EditorState × List Effect :=
  ({ s with
      killRing := addToKillRing s.killRing (s.line.take s.pos)
        (if 0 < s.killAction then 2 else 0),
      killAction := 2, line := s.line.drop s.pos, pos := 0 }, [])

/-- One character-consuming loop of the CTRL-W handler: while the cursor is
positive and the code point before it satisfies the test, remove it from the
line and push it onto the buffer. -/
def killWhile (test : Nat → Bool) : Nat → Str → Str → Str × Nat × Str
  | 0, line, buf => (line, 0, buf)
  | p + 1, line, buf =>
    if test (line.getD p 0) then
      killWhile test p (line.take p ++ line.drop (p + 1)) (buf ++ [line.getD p 0])
    else (line, p + 1, buf)

/-- CTRL-W: erase the word to the left (whitespace run, then non-whitespace
run), reverse the captured buffer so it reads left to right, and record it
in the kill ring (prepend mode on a consecutive kill). -/
def doCtrlW (s : EditorState) : EditorState × List Effect :=
  if s.pos = 0 then (s, [Effect.beep])
  else
    ({ s with
        line := (killWhile (fun c => !isSpace c)
          (killWhile (fun c => isSpace c) s.pos s.line []).2.1
          (killWhile (fun c => isSpace c) s.pos s.line []).1
          (killWhile (fun c => isSpace c) s.pos s.line []).2.2).1,
        pos := (killWhile (fun c => !isSpace c)
          (killWhile (fun c => isSpace c) s.pos s.line []).2.1
          (killWhile (fun c => isSpace c) s.pos s.line []).1
          (killWhile (fun c => isSpace c) s.pos s.line []).2.2).2.1,
        killRing := addToKillRing s.killRing
          (killWhile (fun c => !isSpace c)
            (killWhile (fun c => isSpace c) s.pos s.line []).2.1
            (killWhile (fun c => isSpace c) s.pos s.line []).1
            (killWhile (fun c => isSpace c) s.pos s.line []).2.2).2.2.reverse
          (if 0 < s.killAction then 2 else 0),
        killAction := 2 }, [])

/-- CTRL-T: transpose the code point before the cursor with the one at the
cursor (stepping back first at end of line), then advance the cursor. -/
def doCtrlT (s : EditorState) : EditorState × List Effect :=
  if s.line.length < 2 ∨ s.pos < 1 then (s, [Effect.beep])
  else
    let p := if s.pos = s.line.length then s.pos - 1 else s.pos
    let a := s.line.getD (p - 1) 0
    let b := s.line.getD p 0
    ({ s with line := (s.line.set (p - 1) b).set p a, pos := p + 1 }, [])

/-- Final cursor position of the wordLeft action: step left at least once,
then keep stepping while the code point before the cursor is not a space. -/
def wordLeftPos (line : Str) : Nat → Nat
  | 0 => 0
  | p + 1 => if p = 0 then 0 else if isSpace (line.getD (p - 1) 0) then p else wordLeftPos line p

/-- Final cursor position of the wordRight action: step right at least once,
then keep stepping while the code point at the cursor is not a space. -/
def wordRightPos (line : Str) (pos : Nat) : Nat :=
  if h : line.length ≤ pos + 1 then pos + 1
  else if isSpace (line.getD (pos + 1) 0) then pos + 1
  else wordRightPos line (pos + 1)
termination_by line.length - pos

/-- The dispatch switch of the Prompt main loop, covering every rune and
action case of the source. TAB, CTRL-R and CTRL-Y are intercepted by the
sub-mode hooks before dispatch when applicable; when they do reach dispatch
(for example CTRL-Y with an empty kill ring) they beep, as in the source. -/
def dispatchRune (s : EditorState) (c : Nat) : CoreRes :=
  if c = 13 ∨ c = 10 then .done s.line .accepted
  else if c = 1 then .cont { s with pos := 0 } false []
  else if c = 5 then .cont { s with pos := s.line.length } false []
  else if c = 2 then
    if 0 < s.pos then .cont { s with pos := s.pos - 1 } false []
    else .cont s false [Effect.beep]
  else if c = 6 then
    if s.pos < s.line.length then .cont { s with pos := s.pos + 1 } false []
    else .cont s false [Effect.beep]
  else if c = 4 then
    if s.pos = 0 ∧ s.line = [] then .done [] .eof
    else if s.line.length ≤ s.pos then .cont s false [Effect.startPromptCall, Effect.beep]
    else .cont { s with line := deleteAt s.line s.pos } false [Effect.startPromptCall]
  else if c = 11 then .cont (doCtrlK s).1 false (doCtrlK s).2
  else if c = 16 then .cont (historyUp s).1 true (historyUp s).2
  else if c = 14 then .cont (historyDown s).1 true (historyDown s).2
  else if c = 20 then .cont (doCtrlT s).1 false (doCtrlT s).2
  else if c = 12 then .cont s false [Effect.eraseScreenCall]
  else if c = 8 ∨ c = 127 then
    if s.pos = 0 then .cont s false [Effect.beep]
    else .cont { s with line := deleteAt s.line (s.pos - 1), pos := s.pos - 1 } false []
  else if c = 21 then .cont (doCtrlU s).1 false (doCtrlU s).2
  else if c = 23 then .cont (doCtrlW s).1 false (doCtrlW s).2
  else if c = 27 then .cont s false []
  else if c = 9 ∨ c = 18 ∨ c = 25 ∨ c = 7 ∨ c = 15 ∨ c = 17 ∨
          c = 19 ∨ c = 22 ∨ c = 24 ∨ c = 26 ∨ c = 0 ∨ c = 3 ∨
          c = 28 ∨ c = 29 ∨ c = 30 ∨ c = 31 then
    .cont s false [Effect.beep]
  else .cont { s with line := insertAt s.line s.pos c, pos := s.pos + 1 } false []

/-- The action half of the dispatch switch. -/
def dispatchAct (s : EditorState) (a : Act) : CoreRes :=
  match a with
  | .del =>
    if s.line.length ≤ s.pos then .cont s false [Effect.beep]
    else .cont { s with line := deleteAt s.line s.pos } false []
  | .left =>
    if 0 < s.pos then .cont { s with pos := s.pos - 1 } false []
    else .cont s false [Effect.beep]
  | .wordLeft =>
    if 0 < s.pos then .cont { s with pos := wordLeftPos s.line s.pos } false []
    else .cont s false [Effect.beep]
  | .right =>
    if s.pos < s.line.length then .cont { s with pos := s.pos + 1 } false []
    else .cont s false [Effect.beep]
  | .wordRight =>
    if s.pos < s.line.length then .cont { s with pos := wordRightPos s.line s.pos } false []
    else .cont s false [Effect.beep]
  | .up =>
    let r := historyUp s
    .cont r.1 true r.2
  | .down =>
    let r := historyDown s
    .cont r.1 true r.2
  | .home => .cont { s with pos := 0 } false []
  | .endOfLine => .cont { s with pos := s.line.length } false []
  | _ => .cont s false []

/-- The dispatch switch of the Prompt main loop: runes to the rune half,
actions to the action half. -/
def dispatchCore (s : EditorState) (k : Key) : CoreRes :=
  match k with
  | .ch c => dispatchRune s c
  | .act a => dispatchAct s a

/-- Recompute the prefix-history snapshot from the current line and reset
the history cursor past its end. -/
def recomputeHist (s : EditorState) : EditorState :=
  let ph := getHistoryByPfx s.history s.line
  { s with prefixHistory := ph, historyPos := ph.length }

/-- Decrement the kill-action latch if positive. -/
def stepKA (s : EditorState) : EditorState :=
  if 0 < s.killAction then { s with killAction := s.killAction - 1 } else s

/-- End-of-iteration bookkeeping of the main loop: recompute the
prefix-history snapshot unless the action was history navigation, then
decrement the kill-action latch. -/
def postStep (s : EditorState) : Bool → EditorState
  | true => stepKA s
  | false => stepKA (recomputeHist s)

/-- Dispatch one key in the Prompt main loop, including the
end-of-iteration bookkeeping. -/
def dispatchKey (s : EditorState) (k : Key) : StepRes :=
  match dispatchCore s k with
  | .done l r => .done l r
  | .cont s' hAct eff => .cont (postStep s' hAct) eff

/-- Run a list of keys through the main loop (stopping at termination). -/
def runKeys : EditorState → List Key → StepRes
  | s, [] => .cont s []
  | s, k :: ks =>
    match dispatchKey s k with
    | .cont s' _ => runKeys s' ks
    | .done l r => .done l r

/-- The state change of one up key, as a pure function. -/
def upF (s : EditorState) : EditorState := postStep (historyUp s).1 true

/-- The state change of one down key, as a pure function. -/
def downF (s : EditorState) : EditorState := postStep (historyDown s).1 true

/-- Project the outcome of a key sequence to the resulting line buffer and
cursor (none when the session terminated). -/
def runLine (s : EditorState) (ks : List Key) : Option (Str × Nat) :=
  match runKeys s ks with
  | StepRes.cont t _ => some (t.line, t.pos)
  | StepRes.done _ _ => none

/-- A concrete mid-session state: history ["git status", "git push"], the
user has typed "g" (cursor 1), prefix history holds both entries and the
history cursor sits past its end. -/
def exNavState : EditorState :=
  { line := strRunes "g", pos := 1,
    history := [strRunes "git status", strRunes "git push"],
    prefixHistory := [strRunes "git status", strRunes "git push"],
    historyPos := 2, historyEnd := [], killRing := [], killAction := 0 }

/-- A concrete mid-session state for the kill-coalescing witness: line
"abcd", cursor 2, empty kill ring, latch 0. -/
def exKillState : EditorState :=
  { line := [97, 98, 99, 100], pos := 2, history := [], prefixHistory := [],
    historyPos := 0, historyEnd := [], killRing := [], killAction := 0 }

/-! ## Reverse incremental search sub-mode -/

/-- The local state of the reverseISearch loop: the search pattern and its
cursor, the current found line and match offset, the stored match lists, and
the index into them (a Go int, -1 when the stored list is empty). -/
structure RISState where
  line : Str
  pos : Nat
  foundLine : Str
  foundPos : Nat
  histMatches : List Str
  positions : List Nat
  historyPos : Int
deriving DecidableEq, Repr

/-- Result of one reverseISearch iteration: continue searching, or leave the
sub-mode with a replacement line, cursor, and re-dispatched key. -/
inductive RISRes
  | cont (st : RISState) (eff : List Effect)
  | finish (line : Str) (pos : Nat) (next : Key)
deriving DecidableEq, Repr

/-- The rune keys that commit the current found line and leave the
sub-mode (the explicit list in the source's switch). -/
def risCommitKey (c : Nat) : Bool :=
  c == tab || c == cr || c == lf || c == ctrlA || c == ctrlB || c == ctrlD ||
  c == ctrlE || c == ctrlF || c == ctrlK || c == ctrlL || c == ctrlN ||
  c == ctrlO || c == ctrlP || c == ctrlQ || c == ctrlT || c == ctrlU ||
  c == ctrlV || c == ctrlW || c == ctrlX || c == ctrlY || c == ctrlZ ||
  c == 0 || c == ctrlC || c == esc || c == 28 || c == 29 || c == 30 || c == 31

/-- The rune half of one reverseISearch iteration. In the backspace branch
the source redeclares (shadows) its match-list variables, so only the found
line, offset and index are refreshed there while the stored lists stay
stale; the printable branch assigns the outer variables and refreshes
everything. -/
def risChar (history : List Str) (origLine : Str) (origPos : Nat)
    (st : RISState) (v : Nat) : RISRes :=
  if v = ctrlR then
    if 0 < st.historyPos ∧ st.historyPos < (st.histMatches.length : Int) then
      RISRes.cont { st with
        historyPos := st.historyPos - 1,
        foundLine := st.histMatches.getD (st.historyPos - 1).toNat [],
        foundPos := st.positions.getD (st.historyPos - 1).toNat 0 } []
    else RISRes.cont st [Effect.beep]
  else if v = ctrlS then
    if st.historyPos < (st.histMatches.length : Int) - 1 ∧ 0 ≤ st.historyPos then
      RISRes.cont { st with
        historyPos := st.historyPos + 1,
        foundLine := st.histMatches.getD (st.historyPos + 1).toNat [],
        foundPos := st.positions.getD (st.historyPos + 1).toNat 0 } []
    else RISRes.cont st [Effect.beep]
  else if v = ctrlH ∨ v = bs then
    if st.pos = 0 then RISRes.cont st [Effect.beep]
    else if 0 < (getHistoryByPattern history (deleteAt st.line (st.pos - 1))).1.length then
      RISRes.cont { st with
        line := deleteAt st.line (st.pos - 1), pos := st.pos - 1,
        historyPos := ((getHistoryByPattern history (deleteAt st.line (st.pos - 1))).1.length : Int) - 1,
        foundLine := (getHistoryByPattern history (deleteAt st.line (st.pos - 1))).1.getD
          ((getHistoryByPattern history (deleteAt st.line (st.pos - 1))).1.length - 1) [],
        foundPos := (getHistoryByPattern history (deleteAt st.line (st.pos - 1))).2.getD
          ((getHistoryByPattern history (deleteAt st.line (st.pos - 1))).1.length - 1) 0 } []
    else
      RISRes.cont { st with
        line := deleteAt st.line (st.pos - 1), pos := st.pos - 1,
        historyPos := ((getHistoryByPattern history (deleteAt st.line (st.pos - 1))).1.length : Int) - 1,
        foundLine := [], foundPos := 0 } []
  else if v = ctrlG then RISRes.finish origLine origPos (Key.ch esc)
  else if risCommitKey v then RISRes.finish st.foundLine st.foundPos (Key.ch v)
  else if 0 < (getHistoryByPattern history (insertAt st.line st.pos v)).1.length then
    RISRes.cont { st with
      line := insertAt st.line st.pos v, pos := st.pos + 1,
      histMatches := (getHistoryByPattern history (insertAt st.line st.pos v)).1,
      positions := (getHistoryByPattern history (insertAt st.line st.pos v)).2,
      historyPos := ((getHistoryByPattern history (insertAt st.line st.pos v)).1.length : Int) - 1,
      foundLine := (getHistoryByPattern history (insertAt st.line st.pos v)).1.getD
        ((getHistoryByPattern history (insertAt st.line st.pos v)).1.length - 1) [],
      foundPos := (getHistoryByPattern history (insertAt st.line st.pos v)).2.getD
        ((getHistoryByPattern history (insertAt st.line st.pos v)).1.length - 1) 0 } []
  else
    RISRes.cont { st with
      line := insertAt st.line st.pos v, pos := st.pos + 1,
      histMatches := (getHistoryByPattern history (insertAt st.line st.pos v)).1,
      positions := (getHistoryByPattern history (insertAt st.line st.pos v)).2,
      historyPos := ((getHistoryByPattern history (insertAt st.line st.pos v)).1.length : Int) - 1,
      foundLine := [], foundPos := 0 } []

/-- One iteration of the reverseISearch loop: runes to the rune half, any
action key commits the current found line. -/
def risStep (history : List Str) (origLine : Str) (origPos : Nat)
    (st : RISState) (k : Key) : RISRes :=
  match k with
  | .ch v => risChar history origLine origPos st v
  | .act _ => RISRes.finish st.foundLine st.foundPos k

/-- The state of the reverseISearch loop on entry: empty pattern, empty
found line, match lists computed from the empty pattern (hence empty), and
index -1. -/
def risInit (history : List Str) : RISState :=
  { line := [], pos := 0, foundLine := [], foundPos := 0,
    histMatches := (getHistoryByPattern history []).1,
    positions := (getHistoryByPattern history []).2,
    historyPos := ((getHistoryByPattern history []).1.length : Int) - 1 }

/-- Outcome of feeding a key list to the reverseISearch loop. -/
inductive RISOut
  | pending (st : RISState)
  | finished (line : Str) (pos : Nat) (next : Key)
deriving DecidableEq, Repr

/-- Feed a list of keys to the reverseISearch loop. -/
def risRun (history : List Str) (origLine : Str) (origPos : Nat) :
    RISState → List Key → RISOut
  | st, [] => .pending st
  | st, k :: ks =>
    match risStep history origLine origPos st k with
    | .cont st' _ => risRun history origLine origPos st' ks
    | .finish l p nk => .finished l p nk

/-! ## Completion sub-mode -/

/-- The word-completer contract: line and cursor in, (head, candidates,
tail) out. -/
abbrev CompleterFn := Str → Nat → Str × List Str × Str

/-- The candidate-cycling loop of tabComplete. Each iteration renders
head ++ pick ++ tail (collected in the returned trace) and reads a key:
TAB advances with wrap-around, the shiftTab action goes back with
wrap-around, ESC restores the original line and cursor, and any other key
commits the current candidate. none means the key list ran out while the
sub-mode was still waiting for input. -/
def tabCompleteLoop (head : Str) (cands : List Str) (tl : Str)
    (origLine : Str) (origPos : Nat) :
    Nat → List Key → List Str × Option (Str × Nat × Key)
  | le, [] => ([head ++ cands.getD le [] ++ tl], none)
  | le, k :: ks =>
    match k with
    | .ch c =>
      if c = tab then
        ((head ++ cands.getD le [] ++ tl) ::
          (tabCompleteLoop head cands tl origLine origPos
            (if le < cands.length - 1 then le + 1 else 0) ks).1,
         (tabCompleteLoop head cands tl origLine origPos
            (if le < cands.length - 1 then le + 1 else 0) ks).2)
      else if c = esc then
        ([head ++ cands.getD le [] ++ tl], some (origLine, origPos, .ch esc))
      else
        ([head ++ cands.getD le [] ++ tl],
         some (head ++ cands.getD le [] ++ tl,
               head.length + (cands.getD le []).length, k))
    | .act a =>
      if a = Act.shiftTab then
        ((head ++ cands.getD le [] ++ tl) ::
          (tabCompleteLoop head cands tl origLine origPos
            (if 0 < le then le - 1 else cands.length - 1) ks).1,
         (tabCompleteLoop head cands tl origLine origPos
            (if 0 < le then le - 1 else cands.length - 1) ks).2)
      else
        ([head ++ cands.getD le [] ++ tl],
         some (head ++ cands.getD le [] ++ tl,
               head.length + (cands.getD le []).length, k))

/-- tabComplete: with no completer or no candidates, TAB is handed back for
default dispatch; otherwise the cycling loop starts at candidate 0. -/
def tabComplete (completer : Option CompleterFn) (line : Str) (pos : Nat)
    (keys : List Key) : List Str × Option (Str × Nat × Key) :=
  match completer with
  | none => ([], some (line, pos, .ch tab))
  | some f =>
    if (f line pos).2.1.length = 0 then ([], some (line, pos, .ch tab))
    else tabCompleteLoop (f line pos).1 (f line pos).2.1 (f line pos).2.2 line pos 0 keys

/-- Project the outcome of a reverseISearch key sequence still in the
sub-mode to its found line and match offset. -/
def risRunFound (history : List Str) (origLine : Str) (origPos : Nat)
    (ks : List Key) : Option (Str × Nat) :=
  match risRun history origLine origPos (risInit history) ks with
  | RISOut.pending st => some (st.foundLine, st.foundPos)
  | RISOut.finished _ _ _ => none

/-! ## Refresh viewport -/

/-- The rendering decision of refresh when the line does not fit: the
window bounds into the buffer (final, after reserving marker columns),
whether each truncation marker is printed, and the cursor column. -/
structure RefreshView where
  start : Int
  stop : Int
  leftMark : Bool
  rightMark : Bool
  cursor : Int
deriving DecidableEq, Repr

/-- The wide branch of refresh, transcribed from the source: available
space, window centred on the cursor, right-edge then left-edge clamping,
the relative cursor computed before marker adjustment, then one column
reserved per marker. Division truncates toward zero as in Go. -/
def refreshWindow (cols pLen bLen pos : Int) : RefreshView :=
  let space := cols - pLen - 1
  let start1 := pos - Int.tdiv space 2
  let stop1 := start1 + space
  let start2 := if bLen < stop1 then bLen - space else start1
  let stop2 := if bLen < stop1 then bLen else stop1
  let start3 := if start2 < 0 then 0 else start2
  let stop3 := if start2 < 0 then space else stop2
  let relPos := pos - start3
  { start := if 0 < start3 then start3 + 1 else start3,
    stop := if stop3 < bLen then stop3 - 1 else stop3,
    leftMark := decide (0 < start3),
    rightMark := decide (stop3 < bLen),
    cursor := pLen + relPos }

/-- The same rendering decision, stated the way the specification words it:
the clamped window start written denotationally as a clamp of the centred
start into [0, bLen - space], the end at start + space, a marker and one
reserved column on each truncated side, and the cursor at
pLen + (pos - start). -/
def refreshWindowSpec (cols pLen bLen pos : Int) : RefreshView :=
  let space := cols - pLen - 1
  let start := max 0 (min (pos - Int.tdiv space 2) (bLen - space))
  let stop := start + space
  { start := if 0 < start then start + 1 else start,
    stop := if stop < bLen then stop - 1 else stop,
    leftMark := decide (0 < start),
    rightMark := decide (stop < bLen),
    cursor := pLen + (pos - start) }

/-! ## Supporting lemmas: bookkeeping and handler projections -/

theorem postStep_line (s : EditorState) (b : Bool) : (postStep s b).line = s.line := by
  cases b <;> unfold postStep stepKA recomputeHist <;> split_ifs <;> rfl

theorem postStep_pos (s : EditorState) (b : Bool) : (postStep s b).pos = s.pos := by
  cases b <;> unfold postStep stepKA recomputeHist <;> split_ifs <;> rfl

theorem postStep_history (s : EditorState) (b : Bool) : (postStep s b).history = s.history := by
  cases b <;> unfold postStep stepKA recomputeHist <;> split_ifs <;> rfl

theorem postStep_historyEnd (s : EditorState) (b : Bool) :
    (postStep s b).historyEnd = s.historyEnd := by
  cases b <;> unfold postStep stepKA recomputeHist <;> split_ifs <;> rfl

theorem postStep_killRing (s : EditorState) (b : Bool) :
    (postStep s b).killRing = s.killRing := by
  cases b <;> unfold postStep stepKA recomputeHist <;> split_ifs <;> rfl

theorem postStep_killAction (s : EditorState) (b : Bool) :
    (postStep s b).killAction = s.killAction - 1 := by
  cases b <;> unfold postStep stepKA recomputeHist <;> split_ifs <;>
    first | rfl | (rename_i hka; show s.killAction = s.killAction - 1; omega)

theorem postStep_true_prefixHistory (s : EditorState) :
    (postStep s true).prefixHistory = s.prefixHistory := by
  unfold postStep stepKA; split_ifs <;> rfl

theorem postStep_true_historyPos (s : EditorState) :
    (postStep s true).historyPos = s.historyPos := by
  unfold postStep stepKA; split_ifs <;> rfl

theorem historyUp_fst_killRing (s : EditorState) : (historyUp s).1.killRing = s.killRing := by
  unfold historyUp; split_ifs <;> rfl

theorem historyUp_fst_killAction (s : EditorState) :
    (historyUp s).1.killAction = s.killAction := by
  unfold historyUp; split_ifs <;> rfl

theorem historyUp_fst_prefixHistory (s : EditorState) :
    (historyUp s).1.prefixHistory = s.prefixHistory := by
  unfold historyUp; split_ifs <;> rfl

theorem historyUp_fst_history (s : EditorState) : (historyUp s).1.history = s.history := by
  unfold historyUp; split_ifs <;> rfl

theorem historyDown_fst_killRing (s : EditorState) :
    (historyDown s).1.killRing = s.killRing := by
  unfold historyDown; split_ifs <;> rfl

theorem historyDown_fst_killAction (s : EditorState) :
    (historyDown s).1.killAction = s.killAction := by
  unfold historyDown; split_ifs <;> rfl

theorem historyDown_fst_prefixHistory (s : EditorState) :
    (historyDown s).1.prefixHistory = s.prefixHistory := by
  unfold historyDown; split_ifs <;> rfl

theorem historyDown_fst_history (s : EditorState) : (historyDown s).1.history = s.history := by
  unfold historyDown; split_ifs <;> rfl

theorem doCtrlT_killRing (s : EditorState) : (doCtrlT s).1.killRing = s.killRing := by
  unfold doCtrlT; split_ifs <;> rfl

theorem doCtrlT_killAction (s : EditorState) : (doCtrlT s).1.killAction = s.killAction := by
  unfold doCtrlT; split_ifs <;> rfl

/-- The rune dispatcher on any printable rune (not a control code, not
backspace) inserts the rune at the cursor. -/
theorem dispatchRune_other (s : EditorState) (c : Nat) (h32 : 32 ≤ c) (h127 : c ≠ 127) :
    dispatchRune s c
      = CoreRes.cont { s with line := insertAt s.line s.pos c, pos := s.pos + 1 } false [] := by
  delta dispatchRune
  iterate 16 rw [if_neg (by omega)]

theorem dispatchRune_ctrlB_eq (s : EditorState) :
    dispatchRune s 2
      = (if 0 < s.pos then CoreRes.cont { s with pos := s.pos - 1 } false []
         else CoreRes.cont s false [Effect.beep]) := rfl

theorem dispatchRune_ctrlF_eq (s : EditorState) :
    dispatchRune s 6
      = (if s.pos < s.line.length then CoreRes.cont { s with pos := s.pos + 1 } false []
         else CoreRes.cont s false [Effect.beep]) := rfl

theorem dispatchRune_ctrlD_eq (s : EditorState) :
    dispatchRune s 4
      = (if s.pos = 0 ∧ s.line = [] then CoreRes.done [] EndReason.eof
         else if s.line.length ≤ s.pos then
           CoreRes.cont s false [Effect.startPromptCall, Effect.beep]
         else CoreRes.cont { s with line := deleteAt s.line s.pos } false
           [Effect.startPromptCall]) := rfl

theorem dispatchRune_ctrlH_eq (s : EditorState) :
    dispatchRune s 8
      = (if s.pos = 0 then CoreRes.cont s false [Effect.beep]
         else CoreRes.cont { s with line := deleteAt s.line (s.pos - 1), pos := s.pos - 1 }
           false []) := rfl

theorem dispatchRune_bs_eq (s : EditorState) :
    dispatchRune s 127
      = (if s.pos = 0 then CoreRes.cont s false [Effect.beep]
         else CoreRes.cont { s with line := deleteAt s.line (s.pos - 1), pos := s.pos - 1 }
           false []) := rfl

/-- For every key other than the three kill keys, the dispatch switch leaves
the kill ring and the kill-action latch untouched. -/
theorem dispatchCore_nonkill (s : EditorState) (k : Key) (s' : EditorState)
    (hAct : Bool) (eff : List Effect)
    (hk1 : k ≠ Key.ch ctrlK) (hk2 : k ≠ Key.ch ctrlU) (hk3 : k ≠ Key.ch ctrlW)
    (h : dispatchCore s k = CoreRes.cont s' hAct eff) :
    s'.killRing = s.killRing ∧ s'.killAction = s.killAction := by
  cases k with
  | ch c =>
    simp only [dispatchCore] at h
    by_cases h32 : c < 32
    · interval_cases c <;>
        first
          | (exact absurd rfl hk1)
          | (exact absurd rfl hk2)
          | (exact absurd rfl hk3)
          | (cases h <;> exact ⟨rfl, rfl⟩)
          | (cases h <;> exact ⟨historyUp_fst_killRing s, historyUp_fst_killAction s⟩)
          | (cases h <;> exact ⟨historyDown_fst_killRing s, historyDown_fst_killAction s⟩)
          | (cases h <;> exact ⟨doCtrlT_killRing s, doCtrlT_killAction s⟩)
          | (rw [dispatchRune_ctrlB_eq] at h; split_ifs at h <;> (cases h <;> exact ⟨rfl, rfl⟩))
          | (rw [dispatchRune_ctrlF_eq] at h; split_ifs at h <;> (cases h <;> exact ⟨rfl, rfl⟩))
          | (rw [dispatchRune_ctrlD_eq] at h; split_ifs at h <;> (cases h <;> exact ⟨rfl, rfl⟩))
          | (rw [dispatchRune_ctrlH_eq] at h; split_ifs at h <;> (cases h <;> exact ⟨rfl, rfl⟩))
    · by_cases h127 : c = 127
      · subst h127
        rw [dispatchRune_bs_eq] at h
        split_ifs at h <;> (cases h <;> exact ⟨rfl, rfl⟩)
      · rw [dispatchRune_other s c (by omega) h127] at h
        cases h
        exact ⟨rfl, rfl⟩
  | act a =>
    cases a <;> simp only [dispatchCore, dispatchAct] at h <;>
      first
        | (split_ifs at h <;> (cases h <;> exact ⟨rfl, rfl⟩))
        | (cases h <;> exact ⟨historyUp_fst_killRing s, historyUp_fst_killAction s⟩)
        | (cases h <;> exact ⟨historyDown_fst_killRing s, historyDown_fst_killAction s⟩)
        | (cases h <;> exact ⟨rfl, rfl⟩)

/-- For every key other than the three kill keys, a continuing dispatch
leaves the kill ring untouched and decrements the kill-action latch. -/
theorem dispatchKey_nonkill (s : EditorState) (k : Key) (s' : EditorState)
    (eff : List Effect)
    (hk1 : k ≠ Key.ch ctrlK) (hk2 : k ≠ Key.ch ctrlU) (hk3 : k ≠ Key.ch ctrlW)
    (h : dispatchKey s k = StepRes.cont s' eff) :
    s'.killRing = s.killRing ∧ s'.killAction = s.killAction - 1 := by
  unfold dispatchKey at h
  cases hc : dispatchCore s k with
  | done l r => rw [hc] at h; cases h
  | cont t b e =>
    rw [hc] at h
    cases h
    obtain ⟨h1, h2⟩ := dispatchCore_nonkill s k t b _ hk1 hk2 hk3 hc
    exact ⟨(postStep_killRing t b).trans h1, (postStep_killAction t b).trans (by rw [h2])⟩

/-- The dispatch switch terminates the session only on CR/LF (accepted,
returning the buffer) or on CTRL-D with an empty buffer (eof). -/
theorem dispatchCore_done (s : EditorState) (k : Key) (l : Str) (r : EndReason)
    (h : dispatchCore s k = CoreRes.done l r) :
    (r = EndReason.accepted ∧ (k = Key.ch cr ∨ k = Key.ch lf) ∧ l = s.line) ∨
    (r = EndReason.eof ∧ k = Key.ch ctrlD ∧ s.pos = 0 ∧ s.line = [] ∧ l = []) := by
  cases k with
  | ch c =>
    simp only [dispatchCore] at h
    by_cases h32 : c < 32
    · interval_cases c <;>
        first
          | (cases h; exact Or.inl ⟨rfl, Or.inl rfl, rfl⟩)
          | (cases h; exact Or.inl ⟨rfl, Or.inr rfl, rfl⟩)
          | (rw [dispatchRune_ctrlD_eq] at h
             split_ifs at h with h1 h2 <;>
               first
                 | (cases h; exact Or.inr ⟨rfl, rfl, h1.1, h1.2, rfl⟩)
                 | (cases h; done))
          | (rw [dispatchRune_ctrlB_eq] at h; split_ifs at h <;> (cases h; done))
          | (rw [dispatchRune_ctrlF_eq] at h; split_ifs at h <;> (cases h; done))
          | (rw [dispatchRune_ctrlH_eq] at h; split_ifs at h <;> (cases h; done))
          | (cases h; done)
    · by_cases h127 : c = 127
      · subst h127
        rw [dispatchRune_bs_eq] at h
        split_ifs at h <;> (cases h; done)
      · rw [dispatchRune_other s c (by omega) h127] at h
        cases h
  | act a =>
    cases a <;> simp only [dispatchCore, dispatchAct] at h <;>
      first
        | (split_ifs at h <;> (cases h; done))
        | (cases h; done)

/-- Dispatch terminates exactly when the switch does. -/
theorem dispatchKey_done_iff (s : EditorState) (k : Key) (l : Str) (r : EndReason) :
    dispatchKey s k = StepRes.done l r ↔ dispatchCore s k = CoreRes.done l r := by
  unfold dispatchKey
  cases hc : dispatchCore s k with
  | done l2 r2 => simp
  | cont t b e => simp

/-! ## Supporting lemmas: kill ring -/

theorem killRingOrEmpty_length (kr : List Str) :
    (killRingOrEmpty kr).length = max 1 kr.length := by
  unfold killRingOrEmpty
  split_ifs with h1
  · subst h1; rfl
  · have : kr.length ≠ 0 := by simpa using h1
    simp
    omega

theorem addToKillRing_length_le (kr : List Str) (text : Str) (mode : Nat)
    (h : kr.length ≤ KillRingMax) :
    (addToKillRing kr text mode).length ≤ KillRingMax := by
  have hor := killRingOrEmpty_length kr
  have hmax : KillRingMax = 60 := rfl
  unfold addToKillRing
  split_ifs with h1 h2 h3 <;>
    simp only [List.length_append, List.length_cons, List.length_nil, List.length_tail,
      List.length_dropLast] <;>
    first
      | omega
      | (have : kr.length ≠ 0 := by simpa using h2
         omega)

theorem killRingOrEmpty_dropLast_mem (kr : List Str) (seg : Str)
    (hm : seg ∈ (killRingOrEmpty kr).dropLast) : seg ∈ kr := by
  unfold killRingOrEmpty at hm
  split_ifs at hm with h1
  · simp at hm
  · exact List.dropLast_subset kr hm

theorem killRingOrEmpty_getLastD_append_ne (kr : List Str) (text : Str)
    (hkr : ∀ seg ∈ kr, seg ≠ []) (ht : text ≠ []) :
    (killRingOrEmpty kr).getLastD [] ++ text ≠ [] ∧
    text ++ (killRingOrEmpty kr).getLastD [] ≠ [] := by
  constructor <;> intro hcon
  · exact ht (List.append_eq_nil.mp hcon).2
  · exact ht (List.append_eq_nil.mp hcon).1

theorem addToKillRing_nonempty (kr : List Str) (text : Str) (mode : Nat)
    (hkr : ∀ seg ∈ kr, seg ≠ []) (ht : text ≠ []) :
    ∀ seg ∈ addToKillRing kr text mode, seg ≠ [] := by
  intro seg hseg
  unfold addToKillRing at hseg
  split_ifs at hseg with h1 h2 h3 h4 h5
  · simp only [List.mem_singleton] at hseg; subst hseg; exact ht
  · rcases List.mem_append.mp hseg with hm | hm
    · exact hkr seg (List.mem_of_mem_tail hm)
    · simp only [List.mem_singleton] at hm; subst hm; exact ht
  · rcases List.mem_append.mp hseg with hm | hm
    · exact hkr seg hm
    · simp only [List.mem_singleton] at hm; subst hm; exact ht
  · rcases List.mem_append.mp hseg with hm | hm
    · exact hkr seg (killRingOrEmpty_dropLast_mem kr seg hm)
    · simp only [List.mem_singleton] at hm; subst hm
      exact (killRingOrEmpty_getLastD_append_ne kr text hkr ht).1
  · rcases List.mem_append.mp hseg with hm | hm
    · exact hkr seg (killRingOrEmpty_dropLast_mem kr seg hm)
    · simp only [List.mem_singleton] at hm; subst hm
      exact (killRingOrEmpty_getLastD_append_ne kr text hkr ht).2
  · rcases List.mem_append.mp hseg with hm | hm
    · exact hkr seg (killRingOrEmpty_dropLast_mem kr seg hm)
    · simp only [List.mem_singleton] at hm; subst hm; exact ht

theorem killWhile_buf (test : Nat → Bool) :
    ∀ (p : Nat) (line buf : Str), ∃ ext, (killWhile test p line buf).2.2 = buf ++ ext := by
  intro p
  induction p with
  | zero => intro line buf; exact ⟨[], by simp [killWhile]⟩
  | succ p ih =>
    intro line buf
    unfold killWhile
    split_ifs with h1
    · obtain ⟨ext, hext⟩ := ih (line.take p ++ line.drop (p + 1)) (buf ++ [line.getD p 0])
      exact ⟨line.getD p 0 :: ext, by rw [hext]; simp⟩
    · exact ⟨[], by simp⟩

theorem killWhile_succ (test : Nat → Bool) (p : Nat) (line buf : Str) :
    killWhile test (p + 1) line buf
      = if test (line.getD p 0) then
          killWhile test p (line.take p ++ line.drop (p + 1)) (buf ++ [line.getD p 0])
        else (line, p + 1, buf) := rfl

theorem doCtrlW_kill_nonempty (s : EditorState) (hpos : 0 < s.pos) :
    (killWhile (fun c => !isSpace c)
      (killWhile (fun c => isSpace c) s.pos s.line []).2.1
      (killWhile (fun c => isSpace c) s.pos s.line []).1
      (killWhile (fun c => isSpace c) s.pos s.line []).2.2).2.2.reverse ≠ [] := by
  obtain ⟨p, hp⟩ : ∃ p, s.pos = p + 1 := ⟨s.pos - 1, by omega⟩
  rw [hp]
  by_cases htest : isSpace (s.line.getD p 0)
  · have hA : killWhile (fun c => isSpace c) (p + 1) s.line []
        = killWhile (fun c => isSpace c) p (s.line.take p ++ s.line.drop (p + 1))
            ([] ++ [s.line.getD p 0]) := by
      rw [killWhile_succ, if_pos htest]
    obtain ⟨ext2, hext2⟩ := killWhile_buf (fun c => !isSpace c)
      (killWhile (fun c => isSpace c) (p + 1) s.line []).2.1
      (killWhile (fun c => isSpace c) (p + 1) s.line []).1
      (killWhile (fun c => isSpace c) (p + 1) s.line []).2.2
    obtain ⟨ext1, hext1⟩ := killWhile_buf (fun c => isSpace c) p
      (s.line.take p ++ s.line.drop (p + 1)) ([] ++ [s.line.getD p 0])
    rw [hext2, hA, hext1]
    simp
  · have hA : killWhile (fun c => isSpace c) (p + 1) s.line [] = (s.line, p + 1, []) := by
      rw [killWhile_succ, if_neg htest]
    have hB : killWhile (fun c => !isSpace c) (p + 1) s.line []
        = killWhile (fun c => !isSpace c) p (s.line.take p ++ s.line.drop (p + 1))
            ([] ++ [s.line.getD p 0]) := by
      rw [killWhile_succ, if_pos (by simpa using htest)]
    obtain ⟨ext1, hext1⟩ := killWhile_buf (fun c => !isSpace c) p
      (s.line.take p ++ s.line.drop (p + 1)) ([] ++ [s.line.getD p 0])
    rw [hA]
    dsimp only
    rw [hB, hext1]
    simp

theorem dispatchKey_ctrlK (s : EditorState) :
    dispatchKey s (Key.ch ctrlK) = StepRes.cont (postStep (doCtrlK s).1 false) (doCtrlK s).2 := rfl

theorem dispatchKey_ctrlU (s : EditorState) :
    dispatchKey s (Key.ch ctrlU) = StepRes.cont (postStep (doCtrlU s).1 false) (doCtrlU s).2 := rfl

theorem dispatchKey_ctrlW (s : EditorState) :
    dispatchKey s (Key.ch ctrlW) = StepRes.cont (postStep (doCtrlW s).1 false) (doCtrlW s).2 := rfl

theorem dispatchKey_cont_of_core (s : EditorState) (k : Key) (t : EditorState)
    (b : Bool) (e : List Effect) (h : dispatchCore s k = CoreRes.cont t b e) :
    dispatchKey s k = StepRes.cont (postStep t b) e := by
  unfold dispatchKey
  rw [h]

theorem addToKillRing_nil0 (t : Str) : addToKillRing [] t 0 = [t] := rfl

theorem addToKillRing_grow (kr : List Str) (t : Str) (h1 : kr ≠ [])
    (h2 : kr.length < KillRingMax) : addToKillRing kr t 0 = kr ++ [t] := by
  unfold addToKillRing
  rw [if_pos rfl, if_neg h1, if_neg (by omega)]

theorem addToKillRing_full (kr : List Str) (t : Str) (h1 : kr ≠ [])
    (h2 : KillRingMax ≤ kr.length) : addToKillRing kr t 0 = kr.tail ++ [t] := by
  unfold addToKillRing
  rw [if_pos rfl, if_neg h1, if_pos h2]

theorem addToKillRing_append1 (r : List Str) (v t : Str) :
    addToKillRing (r ++ [v]) t 1 = r ++ [v ++ t] := by
  unfold addToKillRing killRingOrEmpty
  simp

theorem addToKillRing_append2 (r : List Str) (v t : Str) :
    addToKillRing (r ++ [v]) t 2 = r ++ [t ++ v] := by
  unfold addToKillRing killRingOrEmpty
  simp

theorem doCtrlK_eq (s : EditorState) (hp : s.pos < s.line.length) :
    doCtrlK s = ({ s with
      killRing := addToKillRing s.killRing (s.line.drop s.pos)
        (if 0 < s.killAction then 1 else 0),
      killAction := 2, line := s.line.take s.pos }, []) := by
  unfold doCtrlK
  rw [if_neg (by omega)]

theorem dispatchKey_ctrlK_eq (s : EditorState) (hp : s.pos < s.line.length) :
    dispatchKey s (Key.ch ctrlK)
      = StepRes.cont (postStep { s with
          killRing := addToKillRing s.killRing (s.line.drop s.pos)
            (if 0 < s.killAction then 1 else 0),
          killAction := 2, line := s.line.take s.pos } false) [] := by
  rw [dispatchKey_ctrlK, doCtrlK_eq s hp]

theorem dispatchKey_ctrlU_eq (s : EditorState) :
    dispatchKey s (Key.ch ctrlU)
      = StepRes.cont (postStep { s with
          killRing := addToKillRing s.killRing (s.line.take s.pos)
            (if 0 < s.killAction then 2 else 0),
          killAction := 2, line := s.line.drop s.pos, pos := 0 } false) [] := rfl

theorem doCtrlW_killRing_eq (s : EditorState) (hpos : 0 < s.pos) :
    ∃ text : Str, text ≠ [] ∧ (doCtrlW s).1.killRing
      = addToKillRing s.killRing text (if 0 < s.killAction then 2 else 0) := by
  refine ⟨_, doCtrlW_kill_nonempty s hpos, ?_⟩
  unfold doCtrlW
  rw [if_neg (by omega)]

/-! ## Supporting lemmas: history file round trip -/

theorem stripRevCR_of_head (a : List Nat) (h : a.head? ≠ some 13) :
    stripRevCR a = a.reverse := by
  unfold stripRevCR
  split
  · rename_i a2
    simp at h
  · rfl

theorem readLinesAux_split (l : List Nat) (hnl : 10 ∉ l) :
    ∀ (acc rest : List Nat),
      readLinesAux acc (l ++ 10 :: rest) =
        stripRevCR (l.reverse ++ acc) :: readLinesAux [] rest := by
  induction l with
  | nil =>
    intro acc rest
    simp [readLinesAux]
  | cons c t ih =>
    intro acc rest
    have hc : c ≠ 10 := fun h => hnl (h ▸ List.mem_cons_self c t)
    have ht : 10 ∉ t := fun h => hnl (List.mem_cons_of_mem c h)
    simp only [List.cons_append, readLinesAux, if_neg hc, List.append_eq]
    rw [ih ht (c :: acc) rest]
    congr 2
    simp

theorem readLinesAux_line (l : List Nat) (hnl : 10 ∉ l)
    (hcr : l.getLast? ≠ some 13) (rest : List Nat) :
    readLinesAux [] (l ++ 10 :: rest) = l :: readLinesAux [] rest := by
  rw [readLinesAux_split l hnl [] rest]
  congr 1
  rw [List.append_nil, stripRevCR_of_head, List.reverse_reverse]
  rw [List.head?_reverse]
  exact hcr

theorem readLines_write (h : List Str) (hnl : ∀ l ∈ h, 10 ∉ l)
    (hcr : ∀ l ∈ h, l.getLast? ≠ some 13) :
    readLinesAux [] ((h.map (fun l => l ++ [10])).flatten) = h := by
  induction h with
  | nil => simp [readLinesAux]
  | cons l t ih =>
    have h1 : ((l :: t).map (fun l => l ++ [10])).flatten
        = l ++ 10 :: ((t.map (fun l => l ++ [10])).flatten) := by
      simp
    rw [h1, readLinesAux_line l (hnl l (List.mem_cons_self l t)) (hcr l (List.mem_cons_self l t))]
    rw [ih (fun x hx => hnl x (List.mem_cons_of_mem l hx))
          (fun x hx => hcr x (List.mem_cons_of_mem l hx))]

theorem foldl_histAppendTrim (lines : List Str) :
    ∀ acc : List Str, acc.length + lines.length ≤ HistoryLimit →
      lines.foldl histAppendTrim acc = acc ++ lines := by
  induction lines with
  | nil => intro acc _; simp
  | cons l t ih =>
    intro acc hle
    have hstep : histAppendTrim acc l = acc ++ [l] := by
      unfold histAppendTrim
      rw [if_neg]
      simp only [List.length_append, List.length_cons, List.length_nil] at hle ⊢
      omega
    rw [List.foldl_cons, hstep, ih (acc ++ [l]) (by simp at hle ⊢; omega)]
    simp

/-- C3 counterexample: the single-entry history whose entry is the two runes
"a CR" is in bounds, newline-free (and trivially valid UTF-8 and short), yet
writing it and reading it back yields the entry "a": the line reader strips
the carriage return standing before the newline. -/
theorem C3_round_trip_counterexample :
    ([[97, 13]] : List Str).length ≤ HistoryLimit ∧
    (∀ l ∈ ([[97, 13]] : List Str), 10 ∉ l) ∧
    readHistory [] (writeHistory [[97, 13]]).2 = (1, [[97]]) ∧
    readHistory [] (writeHistory [[97, 13]]).2 ≠ (([[97, 13]] : List Str).length, [[97, 13]]) := by
  refine ⟨by decide, by decide, by decide, by decide⟩

/-- C3 (amended): for a history of at most HistoryLimit entries, each
newline-free and not ending in a carriage return (and, at the byte level,
valid UTF-8 and within the reader's buffer), WriteHistory followed by
ReadHistory into an empty history reproduces the same entries in order, and
both calls return the number of entries processed. -/
theorem C3_history_round_trip (h : List Str)
    (hlen : h.length ≤ HistoryLimit)
    (hnl : ∀ l ∈ h, 10 ∉ l)
    (hcr : ∀ l ∈ h, l.getLast? ≠ some 13) :
    readHistory [] (writeHistory h).2 = (h.length, h) ∧ (writeHistory h).1 = h.length := by
  constructor
  · unfold readHistory writeHistory
    simp only
    rw [readLines_write h hnl hcr]
    rw [foldl_histAppendTrim h [] (by simpa using hlen)]
    simp
  · rfl

/-- C3 witness: the round-trip theorem applied to the concrete two-entry
history ["ab", "c"]. -/
theorem C3_history_round_trip_witness :
    readHistory [] (writeHistory [[97, 98], [99]]).2 = (2, [[97, 98], [99]]) ∧
    (writeHistory [[97, 98], [99]]).1 = 2 :=
  C3_history_round_trip [[97, 98], [99]] (by decide) (by decide) (by decide)

/-! ## Supporting lemmas: history invariants -/

theorem histAppendTrim_length_le (h : List Str) (l : Str)
    (hle : h.length ≤ HistoryLimit) :
    (histAppendTrim h l).length ≤ HistoryLimit := by
  unfold histAppendTrim
  split_ifs with h1
  · simp only [List.length_append, List.length_cons, List.length_nil, List.length_drop] at h1 ⊢
    omega
  · simp only [List.length_append, List.length_cons, List.length_nil] at h1 ⊢
    omega

theorem readHistory_length_le (hist : List Str) (file : List Nat)
    (hle : hist.length ≤ HistoryLimit) :
    (readHistory hist file).2.length ≤ HistoryLimit := by
  unfold readHistory
  simp only
  generalize readLinesAux [] file = lines
  induction lines generalizing hist with
  | nil => simpa
  | cons l t ih => exact ih (histAppendTrim hist l) (histAppendTrim_length_le hist l hle)

/-- C8 counterexample: reading the two-line file "a LF a LF" into an empty
history yields ["a", "a"]: ReadHistory performs no consecutive-duplicate
suppression, so the claimed invariant fails after this mutation. -/
theorem C8_invariants_counterexample :
    (readHistory [] [97, 10, 97, 10]).2 = [[97], [97]] ∧
    ¬ noConsecutiveDup (readHistory [] [97, 10, 97, 10]).2 := by
  constructor
  · decide
  · intro hch
    rw [show (readHistory [] [97, 10, 97, 10]).2 = [[97], [97]] from by decide] at hch
    exact (List.chain'_cons.mp hch).1 rfl

/-- C8 (amended): AppendHistory keeps the history within HistoryLimit with
the oldest entry evicted first, appending an item equal to the last entry
is a no-op, and AppendHistory preserves the no-consecutive-duplicates
property; ReadHistory keeps the history within HistoryLimit (evicting
oldest first) but does not enforce the no-consecutive-duplicates property. -/
theorem C8_history_invariants :
    (∀ (h : List Str) (item : Str), h.length ≤ HistoryLimit →
      (appendHistory h item).length ≤ HistoryLimit) ∧
    (∀ (h : List Str) (item : Str), h.getLast? = some item → appendHistory h item = h) ∧
    (∀ (h : List Str) (item : Str), h.length = HistoryLimit →
      h.getLast? ≠ some item → appendHistory h item = h.drop 1 ++ [item]) ∧
    (∀ (h : List Str) (item : Str), noConsecutiveDup h →
      noConsecutiveDup (appendHistory h item)) ∧
    (∀ (hist : List Str) (file : List Nat), hist.length ≤ HistoryLimit →
      (readHistory hist file).2.length ≤ HistoryLimit) := by
  refine ⟨?_, ?_, ?_, ?_, fun hist file hle => readHistory_length_le hist file hle⟩
  · intro h item hle
    unfold appendHistory
    split_ifs with h1 h2
    · exact hle
    · simp only [List.length_drop, List.length_append, List.length_cons, List.length_nil] at h2 ⊢
      omega
    · simp only [List.length_append, List.length_cons, List.length_nil] at h2 ⊢
      omega
  · intro h item hlast
    unfold appendHistory
    rw [if_pos hlast]
  · intro h item hlen hlast
    unfold appendHistory
    rw [if_neg hlast, if_pos (by simp [hlen, HistoryLimit]),
        List.drop_append_of_le_length (by simp [hlen, HistoryLimit])]
  · intro h item hch
    unfold appendHistory
    split_ifs with h1 h2
    · exact hch
    · -- trimmed append: drop the head of h ++ [item]
      exact (List.chain'_append.mpr
        ⟨hch, List.chain'_singleton item,
          fun x hx y hy => by
            simp only [List.head?_cons, Option.mem_def, Option.some.injEq] at hy
            subst hy
            intro hxy
            subst hxy
            exact h1 hx⟩).drop 1
    · exact List.chain'_append.mpr
        ⟨hch, List.chain'_singleton item,
          fun x hx y hy => by
            simp only [List.head?_cons, Option.mem_def, Option.some.injEq] at hy
            subst hy
            intro hxy
            subst hxy
            exact h1 hx⟩

/-- C8 witness: the amended invariants applied to a concrete history:
appending "b" then "b" again to ["a"] yields ["a", "b"] once. -/
theorem C8_history_invariants_witness :
    appendHistory [[97]] [98] = [[97], [98]] ∧
    appendHistory [[97], [98]] [98] = [[97], [98]] ∧
    noConsecutiveDup (appendHistory [[97], [98]] [98]) :=
  ⟨by decide,
   C8_history_invariants.2.1 [[97], [98]] [98] (by decide),
   by
    rw [C8_history_invariants.2.1 [[97], [98]] [98] (by decide)]
    exact List.chain'_cons.mpr ⟨by decide, List.chain'_singleton [98]⟩⟩

/-! ## C2: kill ring invariants -/

/-- C2 counterexample: from a reachable state with line "a", cursor 0 and an
empty kill ring, CTRL-U records the empty prefix as a kill-ring segment (the
source has no guard), so the ring then contains an empty segment. -/
theorem C2_kill_ring_counterexample :
    dispatchKey { line := [97], pos := 0, history := [], prefixHistory := [],
                  historyPos := 0, historyEnd := [], killRing := [], killAction := 0 }
        (Key.ch ctrlU)
      = StepRes.cont { line := [97], pos := 0, history := [], prefixHistory := [],
                       historyPos := 0, historyEnd := [], killRing := [[]], killAction := 1 } [] ∧
    ¬ (∀ seg ∈ ([[]] : List Str), seg ≠ []) := by
  constructor
  · decide
  · intro hall
    exact hall [] (by simp) rfl

/-- C2 (amended): every kill operation keeps the kill ring within
KillRingMax segments, and a full ring is overwritten at its oldest segment
rather than grown; CTRL-K and CTRL-W kills always preserve segment
non-emptiness, and CTRL-U does so when the cursor is positive (within the
line), but CTRL-U at cursor 0 records an empty segment (see the
counterexample), so unrestricted segment non-emptiness does not hold. -/
theorem C2_kill_ring_invariants :
    (∀ (s s' : EditorState) (eff : List Effect) (k : Key),
      (k = Key.ch ctrlK ∨ k = Key.ch ctrlU ∨ k = Key.ch ctrlW) →
      s.killRing.length ≤ KillRingMax →
      dispatchKey s k = StepRes.cont s' eff → s'.killRing.length ≤ KillRingMax) ∧
    (∀ (s s' : EditorState) (eff : List Effect),
      (∀ seg ∈ s.killRing, seg ≠ []) →
      dispatchKey s (Key.ch ctrlK) = StepRes.cont s' eff →
      ∀ seg ∈ s'.killRing, seg ≠ []) ∧
    (∀ (s s' : EditorState) (eff : List Effect),
      (∀ seg ∈ s.killRing, seg ≠ []) → 0 < s.pos → s.pos ≤ s.line.length →
      dispatchKey s (Key.ch ctrlU) = StepRes.cont s' eff →
      ∀ seg ∈ s'.killRing, seg ≠ []) ∧
    (∀ (s s' : EditorState) (eff : List Effect),
      (∀ seg ∈ s.killRing, seg ≠ []) →
      dispatchKey s (Key.ch ctrlW) = StepRes.cont s' eff →
      ∀ seg ∈ s'.killRing, seg ≠ []) ∧
    (∀ s : EditorState, s.killAction = 0 → s.pos < s.line.length →
      s.killRing.length = KillRingMax →
      ∃ s' : EditorState, ∃ eff : List Effect,
        dispatchKey s (Key.ch ctrlK) = StepRes.cont s' eff ∧
        s'.killRing = s.killRing.tail ++ [s.line.drop s.pos] ∧
        s'.killRing.length = KillRingMax) := by
  refine ⟨?_, ?_, ?_, ?_, ?_⟩
  · intro s s' eff k hk hlen hstep
    rcases hk with hk | hk | hk <;> subst hk
    · rw [dispatchKey_ctrlK] at hstep
      cases hstep
      rw [postStep_killRing]
      unfold doCtrlK
      split_ifs with h1 h2
      · exact hlen
      · dsimp only
        exact addToKillRing_length_le _ _ _ hlen
      · dsimp only
        exact addToKillRing_length_le _ _ _ hlen
    · rw [dispatchKey_ctrlU] at hstep
      cases hstep
      rw [postStep_killRing]
      unfold doCtrlU
      split_ifs with h1
      · dsimp only
        exact addToKillRing_length_le _ _ _ hlen
      · dsimp only
        exact addToKillRing_length_le _ _ _ hlen
    · rw [dispatchKey_ctrlW] at hstep
      cases hstep
      rw [postStep_killRing]
      unfold doCtrlW
      split_ifs with h1 h2
      · exact hlen
      · dsimp only
        exact addToKillRing_length_le _ _ _ hlen
      · dsimp only
        exact addToKillRing_length_le _ _ _ hlen
  · intro s s' eff hne hstep
    rw [dispatchKey_ctrlK] at hstep
    cases hstep
    rw [postStep_killRing]
    have hdrop : ∀ h1 : ¬s.line.length ≤ s.pos, s.line.drop s.pos ≠ [] := by
      intro h1 hcon
      have := congrArg List.length hcon
      simp at this
      omega
    unfold doCtrlK
    split_ifs with h1 h2
    · exact hne
    · dsimp only
      exact addToKillRing_nonempty _ _ _ hne (hdrop h1)
    · dsimp only
      exact addToKillRing_nonempty _ _ _ hne (hdrop h1)
  · intro s s' eff hne hpos hple hstep
    rw [dispatchKey_ctrlU] at hstep
    cases hstep
    rw [postStep_killRing]
    have htake : s.line.take s.pos ≠ [] := by
      intro hcon
      have h2 := congrArg List.length hcon
      rw [List.length_take] at h2
      simp only [List.length_nil] at h2
      omega
    unfold doCtrlU
    split_ifs with h1
    · dsimp only
      exact addToKillRing_nonempty _ _ _ hne htake
    · dsimp only
      exact addToKillRing_nonempty _ _ _ hne htake
  · intro s s' eff hne hstep
    rw [dispatchKey_ctrlW] at hstep
    cases hstep
    rw [postStep_killRing]
    by_cases hpos : s.pos = 0
    · unfold doCtrlW
      rw [if_pos hpos]
      exact hne
    · obtain ⟨text, htne, heq⟩ := doCtrlW_killRing_eq s (by omega)
      rw [heq]
      exact addToKillRing_nonempty _ _ _ hne htne
  · intro s hka hp hfull
    have hkrne : s.killRing ≠ [] := by
      intro hcon
      rw [hcon] at hfull
      simp [KillRingMax] at hfull
    refine ⟨_, _, dispatchKey_ctrlK_eq s hp, ?_, ?_⟩
    · rw [postStep_killRing]
      show addToKillRing s.killRing (s.line.drop s.pos) (if 0 < s.killAction then 1 else 0) = _
      rw [hka, if_neg (by omega)]
      exact addToKillRing_full s.killRing _ hkrne (by omega)
    · rw [postStep_killRing]
      show (addToKillRing s.killRing (s.line.drop s.pos)
        (if 0 < s.killAction then 1 else 0)).length = _
      rw [hka, if_neg (by omega), addToKillRing_full s.killRing _ hkrne (by omega)]
      have hne0 : s.killRing.length ≠ 0 := by rw [hfull]; decide
      simp [List.length_tail]
      omega

/-- C2 witness: the bound-preservation conjunct applied at a concrete state:
a CTRL-K kill from a one-segment ring keeps the ring within bounds. -/
theorem C2_kill_ring_invariants_witness :
    dispatchKey { line := [97, 98], pos := 1, history := [], prefixHistory := [],
                  historyPos := 0, historyEnd := [], killRing := [[99]], killAction := 0 }
        (Key.ch ctrlK)
      = StepRes.cont { line := [97], pos := 1, history := [], prefixHistory := [],
                       historyPos := 0, historyEnd := [], killRing := [[99], [98]],
                       killAction := 1 } [] ∧
    ([[99], [98]] : List Str).length ≤ KillRingMax := by
  constructor
  · decide
  · have := C2_kill_ring_invariants.1
      { line := [97, 98], pos := 1, history := [], prefixHistory := [],
        historyPos := 0, historyEnd := [], killRing := [[99]], killAction := 0 }
      { line := [97], pos := 1, history := [], prefixHistory := [],
        historyPos := 0, historyEnd := [], killRing := [[99], [98]], killAction := 1 }
      [] (Key.ch ctrlK) (Or.inl rfl) (by decide) (by decide)
    simpa using this

/-! ## C7: CTRL-D and the eof end reason -/

/-- C7: dispatch returns the eof end reason exactly on CTRL-D with an empty
buffer (cursor 0); no other key produces eof; and a CTRL-D in any other
state continues the session, first re-arming the reader (startPrompt) and
then either beeping (cursor at end of line) or deleting the code point at
the cursor. -/
theorem C7_ctrlD_eof :
    (∀ s : EditorState,
      (dispatchKey s (Key.ch ctrlD) = StepRes.done [] EndReason.eof ↔
        s.pos = 0 ∧ s.line = [])) ∧
    (∀ (s : EditorState) (k : Key) (l : Str),
      dispatchKey s k = StepRes.done l EndReason.eof →
      k = Key.ch ctrlD ∧ s.pos = 0 ∧ s.line = [] ∧ l = []) ∧
    (∀ s : EditorState, ¬(s.pos = 0 ∧ s.line = []) → s.line.length ≤ s.pos →
      dispatchKey s (Key.ch ctrlD)
        = StepRes.cont (postStep s false) [Effect.startPromptCall, Effect.beep]) ∧
    (∀ s : EditorState, s.pos < s.line.length →
      dispatchKey s (Key.ch ctrlD)
        = StepRes.cont (postStep { s with line := deleteAt s.line s.pos } false)
            [Effect.startPromptCall]) := by
  refine ⟨?_, ?_, ?_, ?_⟩
  · intro s
    constructor
    · intro h
      rw [dispatchKey_done_iff] at h
      have h2 : dispatchRune s 4 = CoreRes.done [] EndReason.eof := h
      rw [dispatchRune_ctrlD_eq] at h2
      by_cases hc : s.pos = 0 ∧ s.line = []
      · exact hc
      · rw [if_neg hc] at h2
        split_ifs at h2
        all_goals cases h2
    · intro hc
      rw [dispatchKey_done_iff]
      show dispatchRune s 4 = _
      rw [dispatchRune_ctrlD_eq, if_pos hc]
  · intro s k l h
    rw [dispatchKey_done_iff] at h
    rcases dispatchCore_done s k l EndReason.eof h with ⟨hr, _, _⟩ | ⟨_, hk, h1, h2, hl⟩
    · cases hr
    · exact ⟨hk, h1, h2, hl⟩
  · intro s hne hle
    refine dispatchKey_cont_of_core s _ s false _ ?_
    show dispatchRune s 4 = _
    rw [dispatchRune_ctrlD_eq, if_neg hne, if_pos hle]
  · intro s hlt
    refine dispatchKey_cont_of_core s _ _ false _ ?_
    show dispatchRune s 4 = _
    have hne : ¬(s.pos = 0 ∧ s.line = []) := by
      intro hcon
      rw [hcon.2] at hlt
      simp at hlt
    rw [dispatchRune_ctrlD_eq, if_neg hne, if_neg (by omega)]

/-- C7 witness: the delete conjunct applied at the concrete state with line
"ab" and cursor 0: CTRL-D re-arms the reader and deletes the code point at
the cursor, without terminating. -/
theorem C7_ctrlD_eof_witness :
    dispatchKey { line := [97, 98], pos := 0, history := [], prefixHistory := [],
                  historyPos := 0, historyEnd := [], killRing := [], killAction := 0 }
        (Key.ch ctrlD)
      = StepRes.cont { line := [98], pos := 0, history := [], prefixHistory := [],
                       historyPos := 0, historyEnd := [], killRing := [], killAction := 0 }
          [Effect.startPromptCall] :=
  (C7_ctrlD_eof.2.2.2
    { line := [97, 98], pos := 0, history := [], prefixHistory := [],
      historyPos := 0, historyEnd := [], killRing := [], killAction := 0 }
    (by decide)).trans (by decide)

/-! ## C1: kill coalescing -/

/-- C1: in a session state with an empty kill ring and kill-action latch 0,
CTRL-K at cursor pos within the line records the suffix as a single new
segment (latch becomes 1 after the iteration); an immediately following
CTRL-U prepends the killed prefix into that same single segment (yielding
one segment holding the whole original line); a consecutive CTRL-K (latch
positive on entry) appends to the current segment; and any non-kill key
dispatched in between resets the latch to 0, so the next CTRL-K starts a
second segment. -/
theorem C1_kill_coalescing (s : EditorState)
    (hkr : s.killRing = []) (hka : s.killAction = 0) (hp : s.pos < s.line.length) :
    ∃ s1 : EditorState,
      dispatchKey s (Key.ch ctrlK) = StepRes.cont s1 [] ∧
      s1.killRing = [s.line.drop s.pos] ∧
      s1.killAction = 1 ∧ s1.line = s.line.take s.pos ∧ s1.pos = s.pos ∧
      (∃ s2 : EditorState, dispatchKey s1 (Key.ch ctrlU) = StepRes.cont s2 [] ∧
        s2.killRing = [s.line]) ∧
      (∀ (t : EditorState) (r : List Str) (v : Str), 0 < t.killAction →
        t.pos < t.line.length → t.killRing = r ++ [v] →
        ∃ t' : EditorState, dispatchKey t (Key.ch ctrlK) = StepRes.cont t' [] ∧
          t'.killRing = r ++ [v ++ t.line.drop t.pos]) ∧
      (∀ (k : Key) (s2 : EditorState) (eff : List Effect),
        k ≠ Key.ch ctrlK → k ≠ Key.ch ctrlU → k ≠ Key.ch ctrlW →
        dispatchKey s1 k = StepRes.cont s2 eff → s2.pos < s2.line.length →
        ∃ s3 : EditorState, ∃ eff3 : List Effect,
          dispatchKey s2 (Key.ch ctrlK) = StepRes.cont s3 eff3 ∧
          s3.killRing = [s.line.drop s.pos, s2.line.drop s2.pos]) := by
  refine ⟨{ s with line := s.line.take s.pos,
                   prefixHistory := getHistoryByPfx s.history (s.line.take s.pos),
                   historyPos := (getHistoryByPfx s.history (s.line.take s.pos)).length,
                   killRing := [s.line.drop s.pos], killAction := 1 },
    ?_, rfl, rfl, rfl, rfl, ?_, ?_, ?_⟩
  · rw [dispatchKey_ctrlK_eq s hp, hkr, hka]
    rfl
  · refine ⟨_, dispatchKey_ctrlU_eq _, ?_⟩
    rw [postStep_killRing]
    show addToKillRing [s.line.drop s.pos] ((s.line.take s.pos).take s.pos) 2 = [s.line]
    rw [List.take_take, Nat.min_self]
    rw [show ([s.line.drop s.pos] : List Str) = [] ++ [s.line.drop s.pos] from rfl,
      addToKillRing_append2]
    rw [List.nil_append, List.take_append_drop]
  · intro t r v hka2 hpt hkrt
    refine ⟨_, dispatchKey_ctrlK_eq t hpt, ?_⟩
    rw [postStep_killRing]
    show addToKillRing t.killRing (t.line.drop t.pos) (if 0 < t.killAction then 1 else 0) = _
    rw [hkrt, if_pos hka2, addToKillRing_append1]
  · intro k s2 eff hk1 hk2 hk3 hstep hpos2
    obtain ⟨hkr2, hka2⟩ := dispatchKey_nonkill _ k s2 eff hk1 hk2 hk3 hstep
    refine ⟨_, _, dispatchKey_ctrlK_eq s2 hpos2, ?_⟩
    rw [postStep_killRing]
    show addToKillRing s2.killRing (s2.line.drop s2.pos) (if 0 < s2.killAction then 1 else 0) = _
    rw [hkr2, hka2]
    show addToKillRing [s.line.drop s.pos] (s2.line.drop s2.pos) 0 = _
    rw [addToKillRing_grow _ _ (by simp) (by norm_num [KillRingMax])]
    rfl

/-! ## C4: prefix-history navigation reversibility -/

theorem dispatchKey_up (s : EditorState) :
    dispatchKey s (Key.act Act.up) = StepRes.cont (upF s) (historyUp s).2 := rfl

theorem dispatchKey_down (s : EditorState) :
    dispatchKey s (Key.act Act.down) = StepRes.cont (downF s) (historyDown s).2 := rfl

theorem runKeys_cons (s : EditorState) (k : Key) (ks : List Key) :
    runKeys s (k :: ks) = (match dispatchKey s k with
      | StepRes.cont s' _ => runKeys s' ks
      | StepRes.done l r => StepRes.done l r) := rfl

theorem runKeys_replicate (f : EditorState → EditorState) (k : Key)
    (hf : ∀ s : EditorState, ∃ e : List Effect, dispatchKey s k = StepRes.cont (f s) e) :
    ∀ (n : Nat) (s : EditorState),
      runKeys s (List.replicate n k) = StepRes.cont (f^[n] s) [] := by
  intro n
  induction n with
  | zero => intro s; rfl
  | succ n ih =>
    intro s
    obtain ⟨e, he⟩ := hf s
    rw [List.replicate_succ, runKeys_cons, he]
    show runKeys (f s) (List.replicate n k) = _
    rw [ih (f s), Function.iterate_succ_apply]

theorem runKeys_append_cont (ks1 : List Key) :
    ∀ (s t : EditorState) (ks2 : List Key), runKeys s ks1 = StepRes.cont t [] →
      runKeys s (ks1 ++ ks2) = runKeys t ks2 := by
  induction ks1 with
  | nil =>
    intro s t ks2 h
    cases h
    rfl
  | cons k ks ih =>
    intro s t ks2 h
    cases hd : dispatchKey s k with
    | cont s' e =>
      rw [runKeys_cons, hd] at h
      have h2 : runKeys s' ks = StepRes.cont t [] := h
      rw [List.cons_append, runKeys_cons, hd]
      show runKeys s' (ks ++ ks2) = _
      rw [ih s' t ks2 h2]
    | done l r =>
      rw [runKeys_cons, hd] at h
      have h2 : StepRes.done l r = StepRes.cont t [] := h
      cases h2

theorem stepKA_line (s : EditorState) : (stepKA s).line = s.line := by
  unfold stepKA; split_ifs <;> rfl

theorem stepKA_historyPos (s : EditorState) : (stepKA s).historyPos = s.historyPos := by
  unfold stepKA; split_ifs <;> rfl

theorem stepKA_historyEnd (s : EditorState) : (stepKA s).historyEnd = s.historyEnd := by
  unfold stepKA; split_ifs <;> rfl

theorem stepKA_prefixHistory (s : EditorState) :
    (stepKA s).prefixHistory = s.prefixHistory := by
  unfold stepKA; split_ifs <;> rfl

theorem historyUp_fst_historyPos (s : EditorState) :
    (historyUp s).1.historyPos = s.historyPos - 1 := by
  unfold historyUp
  split_ifs <;> first | rfl | (show s.historyPos = s.historyPos - 1; omega)

theorem historyUp_fst_line (s : EditorState) :
    (historyUp s).1.line
      = if 0 < s.historyPos then s.prefixHistory.getD (s.historyPos - 1) []
        else s.line := by
  unfold historyUp
  split_ifs <;> rfl

theorem historyUp_fst_historyEnd (s : EditorState) :
    (historyUp s).1.historyEnd
      = if 0 < s.historyPos ∧ s.historyPos = s.prefixHistory.length then s.line
        else s.historyEnd := by
  unfold historyUp
  split_ifs <;> first | rfl | omega

theorem historyDown_fst_historyPos (s : EditorState) :
    (historyDown s).1.historyPos
      = if s.historyPos < s.prefixHistory.length then s.historyPos + 1
        else s.historyPos := by
  unfold historyDown
  split_ifs <;> rfl

theorem historyDown_fst_historyEnd (s : EditorState) :
    (historyDown s).1.historyEnd = s.historyEnd := by
  unfold historyDown
  split_ifs <;> rfl

theorem historyDown_fst_line (s : EditorState) :
    (historyDown s).1.line
      = if s.historyPos < s.prefixHistory.length then
          (if s.historyPos + 1 = s.prefixHistory.length then s.historyEnd
           else s.prefixHistory.getD (s.historyPos + 1) [])
        else s.line := by
  unfold historyDown
  split_ifs <;> rfl

theorem upF_prefixHistory (s : EditorState) : (upF s).prefixHistory = s.prefixHistory := by
  show (stepKA (historyUp s).1).prefixHistory = _
  rw [stepKA_prefixHistory, historyUp_fst_prefixHistory]

theorem upF_historyPos (s : EditorState) : (upF s).historyPos = s.historyPos - 1 := by
  show (stepKA (historyUp s).1).historyPos = _
  rw [stepKA_historyPos, historyUp_fst_historyPos]

theorem upF_line (s : EditorState) :
    (upF s).line = if 0 < s.historyPos then s.prefixHistory.getD (s.historyPos - 1) []
                   else s.line := by
  show (stepKA (historyUp s).1).line = _
  rw [stepKA_line, historyUp_fst_line]

theorem upF_historyEnd (s : EditorState) :
    (upF s).historyEnd
      = if 0 < s.historyPos ∧ s.historyPos = s.prefixHistory.length then s.line
        else s.historyEnd := by
  show (stepKA (historyUp s).1).historyEnd = _
  rw [stepKA_historyEnd, historyUp_fst_historyEnd]

theorem downF_prefixHistory (s : EditorState) :
    (downF s).prefixHistory = s.prefixHistory := by
  show (stepKA (historyDown s).1).prefixHistory = _
  rw [stepKA_prefixHistory, historyDown_fst_prefixHistory]

theorem downF_historyEnd (s : EditorState) : (downF s).historyEnd = s.historyEnd := by
  show (stepKA (historyDown s).1).historyEnd = _
  rw [stepKA_historyEnd, historyDown_fst_historyEnd]

theorem downF_historyPos (s : EditorState) :
    (downF s).historyPos
      = if s.historyPos < s.prefixHistory.length then s.historyPos + 1
        else s.historyPos := by
  show (stepKA (historyDown s).1).historyPos = _
  rw [stepKA_historyPos, historyDown_fst_historyPos]

theorem downF_line (s : EditorState) :
    (downF s).line
      = if s.historyPos < s.prefixHistory.length then
          (if s.historyPos + 1 = s.prefixHistory.length then s.historyEnd
           else s.prefixHistory.getD (s.historyPos + 1) [])
        else s.line := by
  show (stepKA (historyDown s).1).line = _
  rw [stepKA_line, historyDown_fst_line]

theorem upF_iter_zero (s : EditorState) (h : s.historyPos = 0) (n : Nat) :
    (upF^[n] s).line = s.line ∧ (upF^[n] s).historyPos = 0 ∧
    (upF^[n] s).prefixHistory = s.prefixHistory ∧
    (upF^[n] s).historyEnd = s.historyEnd := by
  induction n with
  | zero => exact ⟨rfl, h, rfl, rfl⟩
  | succ n ih =>
    obtain ⟨h1, h2, h3, h4⟩ := ih
    rw [Function.iterate_succ_apply']
    refine ⟨?_, ?_, ?_, ?_⟩
    · rw [upF_line, if_neg (by omega), h1]
    · rw [upF_historyPos, h2]
    · rw [upF_prefixHistory, h3]
    · rw [upF_historyEnd, if_neg (by rintro ⟨ha, _⟩; omega), h4]

theorem upF_iter_pos (s : EditorState) (h0 : s.historyPos = s.prefixHistory.length)
    (hL : 0 < s.prefixHistory.length) :
    ∀ n : Nat, 1 ≤ n →
      (upF^[n] s).prefixHistory = s.prefixHistory ∧
      (upF^[n] s).historyEnd = s.line ∧
      (upF^[n] s).historyPos = s.prefixHistory.length - min n s.prefixHistory.length ∧
      (upF^[n] s).historyPos < s.prefixHistory.length := by
  intro n
  induction n with
  | zero => omega
  | succ n ih =>
    intro _
    by_cases hn : 1 ≤ n
    · obtain ⟨h1, h2, h3, h4⟩ := ih hn
      rw [Function.iterate_succ_apply']
      refine ⟨?_, ?_, ?_, ?_⟩
      · rw [upF_prefixHistory, h1]
      · rw [upF_historyEnd, if_neg, h2]
        rintro ⟨ha, hb⟩
        rw [h1] at hb
        omega
      · rw [upF_historyPos, h3]
        omega
      · rw [upF_historyPos, h3]
        omega
    · have hn0 : n = 0 := by omega
      subst hn0
      rw [show (0 + 1 : Nat) = 1 from rfl, Function.iterate_one]
      refine ⟨upF_prefixHistory s, ?_, ?_, ?_⟩
      · rw [upF_historyEnd, if_pos ⟨by omega, h0⟩]
      · rw [upF_historyPos, h0]
        omega
      · rw [upF_historyPos, h0]
        omega

theorem downF_iter_noop (t : EditorState) (h : t.historyPos = t.prefixHistory.length)
    (n : Nat) :
    (downF^[n] t).line = t.line ∧ (downF^[n] t).historyPos = t.historyPos ∧
    (downF^[n] t).prefixHistory = t.prefixHistory := by
  induction n with
  | zero => exact ⟨rfl, rfl, rfl⟩
  | succ n ih =>
    obtain ⟨h1, h2, h3⟩ := ih
    rw [Function.iterate_succ_apply']
    refine ⟨?_, ?_, ?_⟩
    · rw [downF_line, if_neg (by rw [h2, h3]; omega), h1]
    · rw [downF_historyPos, if_neg (by rw [h2, h3]; omega), h2]
    · rw [downF_prefixHistory, h3]

theorem downF_iter_reach : ∀ (m : Nat) (t : EditorState),
    t.historyPos < t.prefixHistory.length →
    t.prefixHistory.length ≤ t.historyPos + m → (downF^[m] t).line = t.historyEnd := by
  intro m
  induction m with
  | zero => intro t h1 h2; omega
  | succ m ih =>
    intro t h1 h2
    rw [Function.iterate_succ_apply]
    by_cases hc : t.historyPos + 1 = t.prefixHistory.length
    · have hline : (downF t).line = t.historyEnd := by
        rw [downF_line, if_pos h1, if_pos hc]
      have hhp : (downF t).historyPos = t.historyPos + 1 := by
        rw [downF_historyPos, if_pos h1]
      have hnoop := downF_iter_noop (downF t)
        (by rw [hhp, downF_prefixHistory, hc]) m
      rw [hnoop.1, hline]
    · have hhp : (downF t).historyPos = t.historyPos + 1 := by
        rw [downF_historyPos, if_pos h1]
      have h1' : (downF t).historyPos < (downF t).prefixHistory.length := by
        rw [hhp, downF_prefixHistory]
        omega
      have h2' : (downF t).prefixHistory.length ≤ (downF t).historyPos + m := by
        rw [hhp, downF_prefixHistory]
        omega
      rw [ih (downF t) h1' h2', downF_historyEnd]

theorem up_down_line (s : EditorState) (n : Nat)
    (h0 : s.historyPos = s.prefixHistory.length) :
    (downF^[n] (upF^[n] s)).line = s.line := by
  rcases Nat.eq_zero_or_pos n with hn | hn
  · subst hn; rfl
  rcases Nat.eq_zero_or_pos s.prefixHistory.length with hL | hL
  · obtain ⟨h1, h2, h3, _⟩ := upF_iter_zero s (by omega) n
    have hnoop := downF_iter_noop (upF^[n] s) (by rw [h2, h3, hL]) n
    rw [hnoop.1, h1]
  · obtain ⟨h1, h2, h3, h4⟩ := upF_iter_pos s h0 hL n hn
    have hreach := downF_iter_reach n (upF^[n] s) (by rw [h1]; exact h4)
      (by rw [h1, h3]; omega)
    rw [hreach, h2]

/-- C4: pressing up n times then down n times (with no other key in
between) restores the buffer to the in-progress line held before the first
up; CTRL-P and CTRL-N dispatch identically to the up and down actions; and
on the literal scenario with history ["git status", "git push"] and typed
line "g", the first up yields "git push" with cursor 8, the second
"git status", and two downs return to "g" with cursor 1. -/
theorem C4_up_down_reversible :
    (∀ (s : EditorState) (n : Nat), s.historyPos = s.prefixHistory.length →
      ∃ t : EditorState,
        runKeys s (List.replicate n (Key.act Act.up) ++ List.replicate n (Key.act Act.down))
          = StepRes.cont t [] ∧ t.line = s.line) ∧
    (∀ s : EditorState,
      dispatchKey s (Key.ch ctrlP) = dispatchKey s (Key.act Act.up) ∧
      dispatchKey s (Key.ch ctrlN) = dispatchKey s (Key.act Act.down)) ∧
    (runLine exNavState [Key.act Act.up] = some (strRunes "git push", 8) ∧
     runLine exNavState [Key.act Act.up, Key.act Act.up] = some (strRunes "git status", 10) ∧
     runLine exNavState [Key.act Act.up, Key.act Act.up, Key.act Act.down, Key.act Act.down]
       = some (strRunes "g", 1)) := by
  refine ⟨?_, fun s => ⟨rfl, rfl⟩, by decide, by decide, by decide⟩
  intro s n h0
  have hup := runKeys_replicate upF (Key.act Act.up)
    (fun t => ⟨(historyUp t).2, dispatchKey_up t⟩) n s
  have hdown := runKeys_replicate downF (Key.act Act.down)
    (fun t => ⟨(historyDown t).2, dispatchKey_down t⟩) n (upF^[n] s)
  refine ⟨downF^[n] (upF^[n] s), ?_, up_down_line s n h0⟩
  rw [runKeys_append_cont (List.replicate n (Key.act Act.up)) s (upF^[n] s) _ hup, hdown]

/-- C4 witness: the reversibility conjunct applied to the concrete scenario
state with n = 2. -/
theorem C4_up_down_reversible_witness :
    ∃ t : EditorState,
      runKeys exNavState
          (List.replicate 2 (Key.act Act.up) ++ List.replicate 2 (Key.act Act.down))
        = StepRes.cont t [] ∧ t.line = exNavState.line :=
  C4_up_down_reversible.1 exNavState 2 rfl

/-! ## C6: refresh viewport window -/

/-- C6: when the prompt and buffer do not fit the terminal width, the
rendering window computed by refresh equals the specification form: the
centred start clamped into [0, bLen - space] (right-edge clamp first, then
left-edge), the end at start + space, one column reserved and a marker shown
on each truncated side, and the cursor at pLen + (pos - start) with start
taken before the marker adjustment. -/
theorem C6_refresh_window (cols pLen bLen pos : Int) (h : cols ≤ pLen + bLen) :
    refreshWindow cols pLen bLen pos = refreshWindowSpec cols pLen bLen pos := by
  simp only [refreshWindow, refreshWindowSpec, RefreshView.mk.injEq, decide_eq_decide]
  generalize pos - Int.tdiv (cols - pLen - 1) 2 = q
  refine ⟨?_, ?_, ?_, ?_, ?_⟩ <;> (split_ifs <;> omega)

/-- C6 witness: the window equivalence applied at a concrete wide line
(cols 20, prompt 5, buffer 30, cursor 10). -/
theorem C6_refresh_window_witness :
    ((20 : Int) ≤ 5 + 30) ∧ refreshWindow 20 5 30 10 = refreshWindowSpec 20 5 30 10 :=
  ⟨by decide, C6_refresh_window 20 5 30 10 (by decide)⟩

/-! ## C9: completion sub-mode -/

/-- C9: with no completer or an empty candidate list TAB is handed back
unchanged; TAB advances to the next candidate and SHIFT-TAB to the previous
one, both wrapping around; ESC restores the original line and cursor with
ESC re-dispatched; any other key commits head ++ pick ++ tail with the
cursor after the pick and that key re-dispatched; and the literal scenario
(line "abc", candidates "abcdef"/"abcxyz") renders both candidates and
restores "abc" on ESC. -/
theorem C9_tab_complete :
    (∀ (line : Str) (pos : Nat) (keys : List Key),
      tabComplete none line pos keys = ([], some (line, pos, Key.ch tab))) ∧
    (∀ (f : CompleterFn) (line : Str) (pos : Nat) (keys : List Key),
      (f line pos).2.1 = [] →
      tabComplete (some f) line pos keys = ([], some (line, pos, Key.ch tab))) ∧
    (∀ (head : Str) (cands : List Str) (tl ol : Str) (op le : Nat) (ks : List Key),
      le < List.length cands →
      tabCompleteLoop head cands tl ol op le (Key.ch tab :: ks)
        = ((head ++ cands.getD le [] ++ tl) ::
            (tabCompleteLoop head cands tl ol op ((le + 1) % cands.length) ks).1,
           (tabCompleteLoop head cands tl ol op ((le + 1) % cands.length) ks).2)) ∧
    (∀ (head : Str) (cands : List Str) (tl ol : Str) (op le : Nat) (ks : List Key),
      le < List.length cands →
      tabCompleteLoop head cands tl ol op le (Key.act Act.shiftTab :: ks)
        = ((head ++ cands.getD le [] ++ tl) ::
            (tabCompleteLoop head cands tl ol op ((le + cands.length - 1) % cands.length) ks).1,
           (tabCompleteLoop head cands tl ol op ((le + cands.length - 1) % cands.length) ks).2)) ∧
    (∀ (head : Str) (cands : List Str) (tl ol : Str) (op le : Nat) (ks : List Key),
      tabCompleteLoop head cands tl ol op le (Key.ch esc :: ks)
        = ([head ++ cands.getD le [] ++ tl], some (ol, op, Key.ch esc))) ∧
    (∀ (head : Str) (cands : List Str) (tl ol : Str) (op le : Nat) (k : Key) (ks : List Key),
      ((∃ c : Nat, k = Key.ch c ∧ c ≠ tab ∧ c ≠ esc) ∨
       (∃ a : Act, k = Key.act a ∧ a ≠ Act.shiftTab)) →
      tabCompleteLoop head cands tl ol op le (k :: ks)
        = ([head ++ cands.getD le [] ++ tl],
           some (head ++ cands.getD le [] ++ tl,
                 head.length + (cands.getD le []).length, k))) ∧
    (tabComplete (some (fun _ _ => ([], [strRunes "abcdef", strRunes "abcxyz"], [])))
        (strRunes "abc") 3 [Key.ch tab, Key.ch esc]
      = ([strRunes "abcdef", strRunes "abcxyz"], some (strRunes "abc", 3, Key.ch esc))) := by
  refine ⟨fun line pos keys => rfl, ?_, ?_, ?_, fun head cands tl ol op le ks => rfl, ?_,
    by decide⟩
  · intro f line pos keys hcand
    have heq : tabComplete (some f) line pos keys
        = if (f line pos).2.1.length = 0 then ([], some (line, pos, Key.ch tab))
          else tabCompleteLoop (f line pos).1 (f line pos).2.1 (f line pos).2.2
            line pos 0 keys := rfl
    rw [heq, if_pos (by rw [hcand]; rfl)]
  · intro head cands tl ol op le ks hle
    have hidx : (if le < cands.length - 1 then le + 1 else 0) = (le + 1) % cands.length := by
      split_ifs with h
      · rw [Nat.mod_eq_of_lt (by omega)]
      · have h2 : le + 1 = cands.length := by omega
        rw [h2, Nat.mod_self]
    rw [show tabCompleteLoop head cands tl ol op le (Key.ch tab :: ks)
        = ((head ++ cands.getD le [] ++ tl) ::
            (tabCompleteLoop head cands tl ol op
              (if le < cands.length - 1 then le + 1 else 0) ks).1,
           (tabCompleteLoop head cands tl ol op
              (if le < cands.length - 1 then le + 1 else 0) ks).2) from rfl, hidx]
  · intro head cands tl ol op le ks hle
    have hidx : (if 0 < le then le - 1 else cands.length - 1)
        = (le + cands.length - 1) % cands.length := by
      split_ifs with h
      · have h2 : le + cands.length - 1 = (le - 1) + cands.length := by omega
        rw [h2, Nat.add_mod_right, Nat.mod_eq_of_lt (by omega)]
      · have h2 : le = 0 := by omega
        subst h2
        rw [Nat.zero_add, Nat.mod_eq_of_lt (by omega)]
    rw [show tabCompleteLoop head cands tl ol op le (Key.act Act.shiftTab :: ks)
        = ((head ++ cands.getD le [] ++ tl) ::
            (tabCompleteLoop head cands tl ol op
              (if 0 < le then le - 1 else cands.length - 1) ks).1,
           (tabCompleteLoop head cands tl ol op
              (if 0 < le then le - 1 else cands.length - 1) ks).2) from rfl, hidx]
  · intro head cands tl ol op le k ks hk
    rcases hk with ⟨c, hkc, hc1, hc2⟩ | ⟨a, hka, ha⟩
    · subst hkc
      rw [show tabCompleteLoop head cands tl ol op le (Key.ch c :: ks)
          = (if c = tab then
              ((head ++ cands.getD le [] ++ tl) ::
                (tabCompleteLoop head cands tl ol op
                  (if le < cands.length - 1 then le + 1 else 0) ks).1,
               (tabCompleteLoop head cands tl ol op
                  (if le < cands.length - 1 then le + 1 else 0) ks).2)
            else if c = esc then
              ([head ++ cands.getD le [] ++ tl], some (ol, op, Key.ch esc))
            else
              ([head ++ cands.getD le [] ++ tl],
               some (head ++ cands.getD le [] ++ tl,
                     head.length + (cands.getD le []).length, Key.ch c))) from rfl,
        if_neg hc1, if_neg hc2]
    · subst hka
      rw [show tabCompleteLoop head cands tl ol op le (Key.act a :: ks)
          = (if a = Act.shiftTab then
              ((head ++ cands.getD le [] ++ tl) ::
                (tabCompleteLoop head cands tl ol op
                  (if 0 < le then le - 1 else cands.length - 1) ks).1,
               (tabCompleteLoop head cands tl ol op
                  (if 0 < le then le - 1 else cands.length - 1) ks).2)
            else
              ([head ++ cands.getD le [] ++ tl],
               some (head ++ cands.getD le [] ++ tl,
                     head.length + (cands.getD le []).length, Key.act a))) from rfl,
        if_neg ha]

/-- C9 witness: the TAB-advance conjunct applied at the last candidate of a
two-element list (index 1 wraps to 0). -/
theorem C9_tab_complete_witness :
    tabCompleteLoop [] [[97], [98]] [] [] 0 1 (Key.ch tab :: [])
      = (([] ++ ([[97], [98]] : List Str).getD 1 [] ++ []) ::
          (tabCompleteLoop [] [[97], [98]] [] [] 0 ((1 + 1) % 2) []).1,
         (tabCompleteLoop [] [[97], [98]] [] [] 0 ((1 + 1) % 2) []).2) :=
  C9_tab_complete.2.2.1 [] [[97], [98]] [] [] 0 1 [] (by decide)

/-! ## C5 and C10: reverse incremental search -/

theorem getD_pred_length_eq_getLastD {α : Type} (l : List α) (d : α) :
    l.getD (l.length - 1) d = l.getLastD d := by
  rw [List.getLastD_eq_getLast?, List.getLast?_eq_getElem?, List.getD_eq_getElem?_getD]

theorem getHistoryByPattern_length_eq (h : List Str) (p : Str) :
    (getHistoryByPattern h p).1.length = (getHistoryByPattern h p).2.length := by
  unfold getHistoryByPattern
  split_ifs <;> simp

/-- C5: in the search sub-mode a printable rune is inserted into the
pattern, the match list is recomputed as the history entries containing the
new pattern (with offsets), the index points at the newest match, and the
found line and offset are taken from it (empty when there is no match); on
the literal scenario, typing "te" over history ["make build", "make test"]
finds "make test" at offset 5, and CTRL-G then cancels back to the original
line with ESC re-dispatched. -/
theorem C5_risearch_printable :
    (∀ (history : List Str) (ol : Str) (op : Nat) (st : RISState) (v : Nat),
      v ≠ ctrlR → v ≠ ctrlS → v ≠ ctrlH → v ≠ bs → v ≠ ctrlG →
      risCommitKey v = false →
      ∃ st' : RISState,
        risStep history ol op st (Key.ch v) = RISRes.cont st' [] ∧
        st'.line = insertAt st.line st.pos v ∧
        st'.pos = st.pos + 1 ∧
        st'.histMatches = (getHistoryByPattern history (insertAt st.line st.pos v)).1 ∧
        st'.positions = (getHistoryByPattern history (insertAt st.line st.pos v)).2 ∧
        st'.historyPos = (st'.histMatches.length : Int) - 1 ∧
        st'.foundLine = st'.histMatches.getLastD [] ∧
        st'.foundPos = st'.positions.getLastD 0) ∧
    (risRunFound [strRunes "make build", strRunes "make test"] [] 0
        [Key.ch 116, Key.ch 101]
      = some (strRunes "make test", 5)) ∧
    (risRun [strRunes "make build", strRunes "make test"] [] 0
        (risInit [strRunes "make build", strRunes "make test"])
        [Key.ch 116, Key.ch 101, Key.ch ctrlG]
      = RISOut.finished [] 0 (Key.ch esc)) := by
  refine ⟨?_, by decide, by decide⟩
  intro history ol op st v h1 h2 h3 h4 h5 h6
  have hstep : risStep history ol op st (Key.ch v) = risChar history ol op st v := rfl
  rw [hstep]
  unfold risChar
  rw [if_neg h1, if_neg h2, if_neg (by rintro (h | h); exacts [h3 h, h4 h]), if_neg h5,
      if_neg (by simp [h6])]
  by_cases hlen : 0 < (getHistoryByPattern history (insertAt st.line st.pos v)).1.length
  · rw [if_pos hlen]
    refine ⟨_, rfl, rfl, rfl, rfl, rfl, rfl, ?_, ?_⟩
    · exact getD_pred_length_eq_getLastD _ _
    · show (getHistoryByPattern history (insertAt st.line st.pos v)).2.getD
          ((getHistoryByPattern history (insertAt st.line st.pos v)).1.length - 1) 0
        = (getHistoryByPattern history (insertAt st.line st.pos v)).2.getLastD 0
      rw [getHistoryByPattern_length_eq]
      exact getD_pred_length_eq_getLastD _ _
  · rw [if_neg hlen]
    have hnil : (getHistoryByPattern history (insertAt st.line st.pos v)).1 = [] :=
      List.length_eq_zero.mp (by omega)
    have hl := getHistoryByPattern_length_eq history (insertAt st.line st.pos v)
    have hnil2 : (getHistoryByPattern history (insertAt st.line st.pos v)).2 = [] :=
      List.length_eq_zero.mp (by omega)
    refine ⟨_, rfl, rfl, rfl, rfl, rfl, rfl, ?_, ?_⟩
    · show ([] : Str) = (getHistoryByPattern history (insertAt st.line st.pos v)).1.getLastD []
      rw [hnil]
      rfl
    · show (0 : Nat) = (getHistoryByPattern history (insertAt st.line st.pos v)).2.getLastD 0
      rw [hnil2]
      rfl

/-- C5 witness: the printable-key conjunct applied at the rune "t" from the
initial sub-mode state over the two-entry history. -/
theorem C5_risearch_printable_witness :
    ∃ st' : RISState,
      risStep [strRunes "make build", strRunes "make test"] [] 0
          (risInit [strRunes "make build", strRunes "make test"]) (Key.ch 116)
        = RISRes.cont st' [] ∧
      st'.line = insertAt (risInit [strRunes "make build", strRunes "make test"]).line
        (risInit [strRunes "make build", strRunes "make test"]).pos 116 ∧
      st'.pos = (risInit [strRunes "make build", strRunes "make test"]).pos + 1 ∧
      st'.histMatches = (getHistoryByPattern [strRunes "make build", strRunes "make test"]
        (insertAt (risInit [strRunes "make build", strRunes "make test"]).line
          (risInit [strRunes "make build", strRunes "make test"]).pos 116)).1 ∧
      st'.positions = (getHistoryByPattern [strRunes "make build", strRunes "make test"]
        (insertAt (risInit [strRunes "make build", strRunes "make test"]).line
          (risInit [strRunes "make build", strRunes "make test"]).pos 116)).2 ∧
      st'.historyPos = (st'.histMatches.length : Int) - 1 ∧
      st'.foundLine = st'.histMatches.getLastD [] ∧
      st'.foundPos = st'.positions.getLastD 0 :=
  C5_risearch_printable.1 [strRunes "make build", strRunes "make test"] [] 0
    (risInit [strRunes "make build", strRunes "make test"]) 116
    (by decide) (by decide) (by decide) (by decide) (by decide) (by decide)

/-- C10: entering the search sub-mode and immediately pressing a committing
key (CR, LF, TAB or any other key in the commit set) leaves the sub-mode
with the empty found line and offset 0 (the empty pattern matches no
history entry), replacing whatever line was being edited; only CTRL-G
restores the original line and cursor (with ESC re-dispatched). -/
theorem C10_risearch_empty_commit :
    (∀ (history : List Str) (ol : Str) (op : Nat) (c : Nat),
      risCommitKey c = true →
      risStep history ol op (risInit history) (Key.ch c)
        = RISRes.finish [] 0 (Key.ch c)) ∧
    (∀ (history : List Str) (ol : Str) (op : Nat),
      risStep history ol op (risInit history) (Key.ch ctrlG)
        = RISRes.finish ol op (Key.ch esc)) ∧
    (risRun [strRunes "make build", strRunes "make test"] (strRunes "abc") 3
        (risInit [strRunes "make build", strRunes "make test"]) [Key.ch cr]
      = RISOut.finished [] 0 (Key.ch cr)) ∧
    (risRun [strRunes "make build", strRunes "make test"] (strRunes "abc") 3
        (risInit [strRunes "make build", strRunes "make test"]) [Key.ch ctrlG]
      = RISOut.finished (strRunes "abc") 3 (Key.ch esc)) := by
  refine ⟨?_, fun history ol op => rfl, by decide, by decide⟩
  intro history ol op c hc
  have h1 : c ≠ ctrlR := by rintro rfl; exact absurd hc (by decide)
  have h2 : c ≠ ctrlS := by rintro rfl; exact absurd hc (by decide)
  have h3 : c ≠ ctrlH := by rintro rfl; exact absurd hc (by decide)
  have h4 : c ≠ bs := by rintro rfl; exact absurd hc (by decide)
  have h5 : c ≠ ctrlG := by rintro rfl; exact absurd hc (by decide)
  have hstep : risStep history ol op (risInit history) (Key.ch c)
      = risChar history ol op (risInit history) c := rfl
  rw [hstep]
  unfold risChar
  rw [if_neg h1, if_neg h2, if_neg (by rintro (h | h); exacts [h3 h, h4 h]), if_neg h5,
      if_pos hc]
  rfl

/-- C10 witness: the commit conjunct applied with an empty history, a
non-empty original line "a" and the CR key. -/
theorem C10_risearch_empty_commit_witness :
    risCommitKey cr = true ∧
    risStep [] [97] 1 (risInit []) (Key.ch cr) = RISRes.finish [] 0 (Key.ch cr) :=
  ⟨by decide, C10_risearch_empty_commit.1 [] [97] 1 cr (by decide)⟩

/-- C1 witness: the kill-coalescing theorem applied at the concrete state
with line "abcd" and cursor 2. -/
theorem C1_kill_coalescing_witness :
    exKillState.killRing = [] ∧ exKillState.killAction = 0 ∧
    exKillState.pos < exKillState.line.length ∧
    (∃ s1 : EditorState,
      dispatchKey exKillState (Key.ch ctrlK) = StepRes.cont s1 [] ∧
      s1.killRing = [exKillState.line.drop exKillState.pos] ∧
      s1.killAction = 1 ∧ s1.line = exKillState.line.take exKillState.pos ∧
      s1.pos = exKillState.pos ∧
      (∃ s2 : EditorState, dispatchKey s1 (Key.ch ctrlU) = StepRes.cont s2 [] ∧
        s2.killRing = [exKillState.line]) ∧
      (∀ (t : EditorState) (r : List Str) (v : Str), 0 < t.killAction →
        t.pos < t.line.length → t.killRing = r ++ [v] →
        ∃ t' : EditorState, dispatchKey t (Key.ch ctrlK) = StepRes.cont t' [] ∧
          t'.killRing = r ++ [v ++ t.line.drop t.pos]) ∧
      (∀ (k : Key) (s2 : EditorState) (eff : List Effect),
        k ≠ Key.ch ctrlK → k ≠ Key.ch ctrlU → k ≠ Key.ch ctrlW →
        dispatchKey s1 k = StepRes.cont s2 eff → s2.pos < s2.line.length →
        ∃ s3 : EditorState, ∃ eff3 : List Effect,
          dispatchKey s2 (Key.ch ctrlK) = StepRes.cont s3 eff3 ∧
          s3.killRing = [exKillState.line.drop exKillState.pos, s2.line.drop s2.pos])) :=
  ⟨rfl, rfl, by decide, C1_kill_coalescing exKillState rfl rfl (by decide)⟩

end Liner
